import Mathlib

/-!
Verification development for the weibo bulk crawl orchestration engine
(`weibo_bulk_api.py`).  The Python source is shallowly embedded: pure
functions become Lean functions, JSON values become the inductive `JVal`,
Python dicts become insertion-ordered association lists, machine floats
become exact rationals, effectful fetches become explicit oracles, and
exceptions become `Except`.  The claim theorems at the end of the file
settle the specification claims against these definitions.
-/

set_option maxRecDepth 10000

/-- JSON values as produced by `resp.json()`.  Python distinguishes `int`
from `float` at runtime (`isinstance` checks in the source), so the
embedding keeps separate constructors; floats are modelled as exact
rationals (every JSON number literal is a finite decimal). -/
inductive JVal where
  | jnull
  | jbool (b : Bool)
  | jint (n : Int)
  | jfloat (q : ℚ)
  | jstr (s : String)
  | jarr (elems : List JVal)
  | jobj (fields : List (String × JVal))
deriving Repr

open JVal

/-- Python dicts used by the crawler, as insertion-ordered association
lists (Python 3.7+ dicts preserve insertion order; updating an existing
key keeps its position, new keys are appended). -/
abbrev PyDict := List (String × JVal)

/-- `d.get(k)` with `None` (here `jnull`) for missing keys. -/
def pyLookup : PyDict → String → JVal
  | [], _ => jnull
  | (k0, v0) :: rest, k => if k0 = k then v0 else pyLookup rest k

/-- `d[k] = v` on a Python dict: replace in place if the key exists,
append otherwise. -/
def pyDictSet : PyDict → String → JVal → PyDict
  | [], k, v => [(k, v)]
  | (k0, v0) :: rest, k, v =>
    if k0 = k then (k0, v) :: rest else (k0, v0) :: pyDictSet rest k v

/-- `d.update(e)`: apply every entry of `e` in order. -/
def pyDictUpdate : PyDict → PyDict → PyDict
  | d, [] => d
  | d, (k, v) :: rest => pyDictUpdate (pyDictSet d k v) rest

/-- Python truthiness (`bool(x)`) on JSON values. -/
def pyTruthy : JVal → Bool
  | jnull => false
  | jbool b => b
  | jint n => n ≠ 0
  | jfloat q => q ≠ 0
  | jstr s => s ≠ ""
  | jarr l => ¬ l.isEmpty
  | jobj m => ¬ m.isEmpty

/-- Python `x == n` for an integer literal `n` (numeric cross-type
equality: `-100.0 == -100` is true, and `bool` is an `int` subtype with
`True == 1`). -/
def pyEqInt (v : JVal) (n : Int) : Bool :=
  match v with
  | jint m => m = n
  | jfloat q => q = (n : ℚ)
  | jbool b => (if b then (1 : Int) else 0) = n
  | _ => false

/-- `isinstance(v, dict)`. -/
def isObj : JVal → Bool
  | jobj _ => true
  | _ => false

/-- Exact decimal expansion of a rational whose denominator divides a
power of ten (every JSON float literal has this shape); used by the
`str()` model below. -/
def decimalExpansion (q : ℚ) : String :=
  let sign := if q < 0 then "-" else ""
  let n := q.num.natAbs
  let d := q.den
  -- search the least k ≤ 64 with d ∣ 10 ^ k
  let k? := (List.range 65).find? (fun k => d ∣ 10 ^ k)
  match k? with
  | none => toString q.num ++ "/" ++ toString q.den
  | some k =>
    let scaled := n * (10 ^ k / d)
    let ip := scaled / 10 ^ k
    let fp := scaled % 10 ^ k
    if k = 0 then sign ++ toString ip
    else
      let fpStr := toString fp
      let pad := String.mk (List.replicate (k - fpStr.length) (Char.ofNat 48))
      sign ++ toString ip ++ "." ++ pad ++ fpStr

/-- `str(x)` on the scalar JSON values the crawler converts (user ids,
screen names, descriptions).  Floats print with a trailing `.0` when
integral and as their exact decimal otherwise; container reprs are
approximated (never reached by the embedded code paths, which only
convert ids/names/descriptions). -/
def pyStr : JVal → String
  | jnull => "None"
  | jbool b => if b then "True" else "False"
  | jint n => toString n
  | jfloat q => if q.den = 1 then toString q.num ++ ".0" else decimalExpansion q
  | jstr s => s
  | jarr _ => "[...]"
  | jobj _ => "\x7b...\x7d"

/-- `str(v or "")`: the string of `v` when truthy, `""` otherwise. -/
def pyOrStr (v : JVal) : String :=
  if pyTruthy v then pyStr v else ""

/-! ## MD5 (`hashlib.md5(keyword.encode("utf-8")).hexdigest()` as an integer)

`process_keyword` and `load_keywords` pick indices with
`int(hashlib.md5(k.encode("utf-8")).hexdigest(), 16) % n`.  The hash is
implemented here over `Nat` with explicit `% 2^32`. -/

/-- UTF-8 encoding of one code point (Python `str.encode("utf-8")`). -/
def utf8EncodeCodePoint (n : Nat) : List Nat :=
  if n < 0x80 then [n]
  else if n < 0x800 then [0xC0 + n / 64, 0x80 + n % 64]
  else if n < 0x10000 then
    [0xE0 + n / 4096, 0x80 + (n / 64) % 64, 0x80 + n % 64]
  else
    [0xF0 + n / 262144, 0x80 + (n / 4096) % 64, 0x80 + (n / 64) % 64, 0x80 + n % 64]

/-- UTF-8 bytes of a string. -/
def utf8Bytes (s : String) : List Nat :=
  s.data.foldr (fun c acc => utf8EncodeCodePoint c.toNat ++ acc) []

/-- MD5 round constants `K[i] = floor(abs(sin(i+1)) * 2^32)` (RFC 1321). -/
def md5K : List Nat :=
  [3614090360, 3905402710, 606105819, 3250441966, 4118548399, 1200080426,
   2821735955, 4249261313, 1770035416, 2336552879, 4294925233, 2304563134,
   1804603682, 4254626195, 2792965006, 1236535329, 4129170786, 3225465664,
   643717713, 3921069994, 3593408605, 38016083, 3634488961, 3889429448,
   568446438, 3275163606, 4107603335, 1163531501, 2850285829, 4243563512,
   1735328473, 2368359562, 4294588738, 2272392833, 1839030562, 4259657740,
   2763975236, 1272893353, 4139469664, 3200236656, 681279174, 3936430074,
   3572445317, 76029189, 3654602809, 3873151461, 530742520, 3299628645,
   4096336452, 1126891415, 2878612391, 4237533241, 1700485571, 2399980690,
   4293915773, 2240044497, 1873313359, 4264355552, 2734768916, 1309151649,
   4149444226, 3174756917, 718787259, 3951481745]

/-- MD5 per-round left-rotation amounts (RFC 1321). -/
def md5S : List Nat :=
  [7, 12, 17, 22, 7, 12, 17, 22, 7, 12, 17, 22, 7, 12, 17, 22,
   5, 9, 14, 20, 5, 9, 14, 20, 5, 9, 14, 20, 5, 9, 14, 20,
   4, 11, 16, 23, 4, 11, 16, 23, 4, 11, 16, 23, 4, 11, 16, 23,
   6, 10, 15, 21, 6, 10, 15, 21, 6, 10, 15, 21, 6, 10, 15, 21]

/-- 32-bit left rotation. -/
def rotl32 (x s : Nat) : Nat :=
  ((x <<< s) % 4294967296) ||| (x >>> (32 - s))

/-- One MD5 round applied to the state `(a, b, c, d)` for block words `m`. -/
def md5Round (m : List Nat) (st : Nat × Nat × Nat × Nat) (i : Nat) :
    Nat × Nat × Nat × Nat :=
  let (a, b, c, d) := st
  let mask := 4294967295
  let f :=
    if i < 16 then (b &&& c) ||| ((mask ^^^ b) &&& d)
    else if i < 32 then (d &&& b) ||| ((mask ^^^ d) &&& c)
    else if i < 48 then b ^^^ c ^^^ d
    else c ^^^ (b ||| (mask ^^^ d))
  let g :=
    if i < 16 then i
    else if i < 32 then (5 * i + 1) % 16
    else if i < 48 then (3 * i + 5) % 16
    else (7 * i) % 16
  let tmp := (f + a + md5K.getD i 0 + m.getD g 0) % 4294967296
  let b2 := (b + rotl32 tmp (md5S.getD i 0)) % 4294967296
  (d, b2, b, c)

/-- Little-endian 32-bit words from a byte list. -/
def leWords : List Nat → List Nat
  | b0 :: b1 :: b2 :: b3 :: rest =>
    (b0 + 256 * b1 + 65536 * b2 + 16777216 * b3) :: leWords rest
  | _ => []

/-- Split a word list into 16-word blocks (input length is a multiple of
16 after padding). -/
def toBlocks : List Nat → List (List Nat)
  | w0 :: w1 :: w2 :: w3 :: w4 :: w5 :: w6 :: w7 ::
    w8 :: w9 :: w10 :: w11 :: w12 :: w13 :: w14 :: w15 :: rest =>
    [w0, w1, w2, w3, w4, w5, w6, w7, w8, w9, w10, w11, w12, w13, w14, w15]
      :: toBlocks rest
  | _ => []

/-- MD5 padding: `0x80`, zeros to 56 mod 64, then the bit length as a
little-endian 64-bit quantity. -/
def md5Pad (msg : List Nat) : List Nat :=
  let len := msg.length
  let zeros := (120 - ((len + 1) % 64)) % 64
  let bitLen := (len * 8) % 18446744073709551616
  let lenBytes := (List.range 8).map (fun i => (bitLen >>> (8 * i)) % 256)
  msg ++ [128] ++ List.replicate zeros 0 ++ lenBytes

/-- Process one 16-word block. -/
def md5Block (h : Nat × Nat × Nat × Nat) (m : List Nat) : Nat × Nat × Nat × Nat :=
  let (h0, h1, h2, h3) := h
  let (a, b, c, d) := (List.range 64).foldl (md5Round m) (h0, h1, h2, h3)
  ((h0 + a) % 4294967296, (h1 + b) % 4294967296,
   (h2 + c) % 4294967296, (h3 + d) % 4294967296)

/-- The four little-endian output bytes of one state word. -/
def md5WordBytes (w : Nat) : List Nat :=
  [w % 256, (w >>> 8) % 256, (w >>> 16) % 256, (w >>> 24) % 256]

/-- MD5 digest (16 bytes) of a byte list. -/
def md5Digest (msg : List Nat) : List Nat :=
  let blocks := toBlocks (leWords (md5Pad msg))
  let (h0, h1, h2, h3) :=
    blocks.foldl md5Block (1732584193, 4023233417, 2562383102, 271733878)
  md5WordBytes h0 ++ md5WordBytes h1 ++ md5WordBytes h2 ++ md5WordBytes h3

/-- `int(hashlib.md5(s.encode("utf-8")).hexdigest(), 16)`: the digest
bytes read as one big-endian integer. -/
def md5Int (s : String) : Nat :=
  (md5Digest (utf8Bytes s)).foldl (fun acc b => acc * 256 + b) 0

/-! ## Item parsers (`parse_card_group_users`, `parse_number_from_text`,
`map_user_basic`, `map_user_contributor`) -/

/-- The user records built by `parse_card_group_users`: dicts of the
exact shape `{"uid": str, "screen_name": str, "desc1": str}`. -/
structure PUser where
  uid : String
  screenName : String
  desc1 : String
deriving Repr, DecidableEq

/-- ASCII digit test (`\d` of the `uid=(\d+)` and number patterns). -/
def isAsciiDigit (c : Char) : Bool :=
  48 ≤ c.toNat ∧ c.toNat ≤ 57

/-- Longest digit prefix. -/
def takeDigits : List Char → List Char
  | [] => []
  | c :: rest => if isAsciiDigit c then c :: takeDigits rest else []

/-- Remainder after the longest digit prefix. -/
def dropDigits : List Char → List Char
  | [] => []
  | c :: rest => if isAsciiDigit c then dropDigits rest else c :: rest

/-- Numeric value of a digit list. -/
def digitsVal (l : List Char) : Nat :=
  l.foldl (fun acc c => acc * 10 + (c.toNat - 48)) 0

/-- `re.search(r"uid=(\d+)", s)`: the digit group of the leftmost match,
`""` when there is none. -/
def findUidParam : List Char → String
  | [] => ""
  | c :: rest =>
    match c :: rest with
    | a :: b :: d :: e :: tl =>
      if a == 'u' && b == 'i' && d == 'd' && e == '=' &&
          (match tl with | t :: _ => isAsciiDigit t | [] => false) then
        String.mk (takeDigits tl)
      else findUidParam rest
    | _ => ""

/-- `parse_number_from_text`: the first `[0-9]+(\.[0-9]+)?` match of the
text as a number, `int` when the float value is integral, `None` when no
digit occurs. -/
def parseNumberChars : List Char → JVal
  | [] => jnull
  | c :: rest =>
    if isAsciiDigit c then
      let ds := c :: takeDigits rest
      match dropDigits rest with
      | p :: t2 =>
        if p = '.' then
          match t2 with
          | f :: t3 =>
            if isAsciiDigit f then
              let fs := f :: takeDigits t3
              if fs.all (fun ch => ch = '0') then jint (digitsVal ds)
              else jfloat ((digitsVal ds : ℚ) + (digitsVal fs : ℚ) / (10 ^ fs.length : ℚ))
            else jint (digitsVal ds)
          | [] => jint (digitsVal ds)
        else jint (digitsVal ds)
      | [] => jint (digitsVal ds)
    else parseNumberChars rest

/-- `parse_number_from_text` on a string. -/
def parseNumberFromText (s : String) : JVal :=
  parseNumberChars s.data

/-- `map_user_basic(user, _)`. -/
def mapUserBasic (u : PUser) (_rank : Nat) : JVal :=
  jobj [("uid", jstr u.uid), ("screen_name", jstr u.screenName)]

/-- `map_user_contributor(user, rank)`. -/
def mapUserContributor (u : PUser) (rank : Nat) : JVal :=
  jobj [("rank", jint rank), ("uid", jstr u.uid), ("name", jstr u.screenName),
        ("contribution_value", parseNumberFromText u.desc1)]

/-- Group pass of `parse_card_group_users`: keep a group when its
`card_type` equals 10 or 11 or its `user` is a dict; derive the uid from
`user["id"]`, falling back to the `uid=` parameter of `itemid`; skip
empty and already-seen uids (the per-page `seen` set). -/
def pcgGroups : List JVal → List PUser → List String → List PUser × List String
  | [], users, seen => (users, seen)
  | g :: rest, users, seen =>
    match g with
    | jobj gm =>
      let ct := pyLookup gm "card_type"
      let userV := pyLookup gm "user"
      if pyEqInt ct 10 ∨ pyEqInt ct 11 ∨ isObj userV then
        let um := match userV with | jobj m => m | _ => []
        let uid0 := pyOrStr (pyLookup um "id")
        let uid :=
          if uid0 = "" then
            match pyLookup gm "itemid" with
            | jstr s => findUidParam s.data
            | _ => ""
          else uid0
        if uid = "" ∨ uid ∈ seen then pcgGroups rest users seen
        else
          pcgGroups rest
            (users ++ [⟨uid, pyOrStr (pyLookup um "screen_name"), pyOrStr (pyLookup gm "desc1")⟩])
            (uid :: seen)
      else pcgGroups rest users seen
    | _ => pcgGroups rest users seen

/-- Card pass of `parse_card_group_users`: non-dict cards are skipped and
`card_group` defaults to `[]` when missing or not a list. -/
def pcgCards : List JVal → List PUser → List String → List PUser
  | [], users, _ => users
  | c :: rest, users, seen =>
    match c with
    | jobj cm =>
      let groups := match pyLookup cm "card_group" with | jarr l => l | _ => []
      let (users2, seen2) := pcgGroups groups users seen
      pcgCards rest users2 seen2
    | _ => pcgCards rest users seen

/-- `parse_card_group_users(cards)`. -/
def parseCardGroupUsers (cards : List JVal) : List PUser :=
  pcgCards cards [] []

/-! ## EndpointFetcher (`fetch_endpoint_items`) -/

/-- The closed set `SUPPORTED_ENDPOINT_PARSERS`; `resolve_api_endpoints`
rejects any other parser name at load time, so endpoint descriptors only
ever carry one of these three. -/
inductive ParserKind where
  | usersBasic
  | contributors
  | rawCards
deriving Repr, DecidableEq

/-- `ApiEndpoint` descriptor (the `containerid_template`, consumed only
by URL construction, is not needed by any claim and is omitted). -/
structure ApiEndpoint where
  name : String
  parser : ParserKind
  outputField : String
  maxPages : Nat
  totalField : String
deriving Repr, DecidableEq

/-- `USER_MAPPERS[parser]` for the two mapper parsers (`raw_cards` takes
the separate append-every-dict branch and never consults a mapper). -/
def mapperFor : ParserKind → PUser → Nat → JVal
  | .contributors => mapUserContributor
  | _ => mapUserBasic

/-- Loop state of `fetch_endpoint_items`: collected items, the
`seen_uids` set, the running `total`, and the number of pages fetched
(`cli.get_json` calls issued). -/
structure FetchSt where
  items : List JVal
  seen : List String
  total : Option Int
  pagesFetched : Nat
deriving Repr

/-- The mapper branch of the page loop: for each parsed user, skip empty
or already-seen uids, otherwise append `mapper(user, len(all_items)+1)`
and record the uid; `got` counts the appended items. -/
def addUsers (mk : PUser → Nat → JVal) :
    List PUser → List JVal → List String → Nat → List JVal × List String × Nat
  | [], items, seen, got => (items, seen, got)
  | u :: rest, items, seen, got =>
    -- uid = str(user.get("uid") or ""): parse_card_group_users built the
    -- dict with a string uid, so this is u.uid itself.
    if u.uid = "" ∨ u.uid ∈ seen then addUsers mk rest items seen got
    else addUsers mk rest (items ++ [mk u (items.length + 1)]) (u.uid :: seen) (got + 1)

/-- The `raw_cards` branch of the page loop: append every dict card. -/
def addRawCards : List JVal → List JVal → Nat → List JVal × Nat
  | [], items, got => (items, got)
  | c :: rest, items, got =>
    if isObj c then addRawCards rest (items ++ [c]) (got + 1)
    else addRawCards rest items got

/-- Page-level item collection for one parser. -/
def addCards : ParserKind → List JVal → List JVal → List String →
    List JVal × List String × Nat
  | .rawCards, cards, items, seen =>
    let (items2, got) := addRawCards cards items 0
    (items2, seen, got)
  | .usersBasic, cards, items, seen =>
    addUsers (mapperFor .usersBasic) (parseCardGroupUsers cards) items seen 0
  | .contributors, cards, items, seen =>
    addUsers (mapperFor .contributors) (parseCardGroupUsers cards) items seen 0

/-- `data = payload.get("data") if isinstance(payload, dict) else {}`,
followed by the `if not isinstance(data, dict): break` test: `some`
carries the data dict, `none` means the loop breaks on this page.  A
non-dict payload yields the empty dict (not a break). -/
def dataOf (payload : JVal) : Option (List (String × JVal)) :=
  let dataV := match payload with | jobj m => pyLookup m "data" | _ => jobj []
  match dataV with
  | jobj dm => some dm
  | _ => none

/-- `data["cardlistInfo"]["total"]` when `cardlistInfo` is a dict and its
`total` is an `int` (Python's `isinstance(x, int)` also accepts `bool`). -/
def infoTotal (dm : List (String × JVal)) : Option Int :=
  let im := match pyLookup dm "cardlistInfo" with | jobj m => m | _ => []
  match pyLookup im "total" with
  | jint n => some n
  | jbool b => some (if b then 1 else 0)
  | _ => none

/-- The total reported by one page payload (`none` when the page is
malformed or carries no integer total). -/
def pageTotal (payload : JVal) : Option Int :=
  match dataOf payload with
  | none => none
  | some dm => infoTotal dm

/-- `data.get("cards")` defaulted to `[]`. -/
def cardsOf (dm : List (String × JVal)) : List JVal :=
  match pyLookup dm "cards" with | jarr l => l | _ => []

/-- The override step the running `total` takes on each processed page
(`total = int(info["total"])` whenever the page reports an integer). -/
def totalStepFn (t0 : Option Int) (reported : Option Int) : Option Int :=
  match reported with
  | some n => some n
  | none => t0

/-- The body of one page iteration of `fetch_endpoint_items`: count the
`get_json` call, break (second component `false`) on malformed `data`,
otherwise override the total, collect the page's cards, and continue
exactly when the page contributed a nonzero number of new items. -/
def pageStep (parser : ParserKind) (payload : JVal) (st : FetchSt) : FetchSt × Bool :=
  let st1 : FetchSt := { st with pagesFetched := st.pagesFetched + 1 }
  match dataOf payload with
  | none => (st1, false)
  | some dm =>
    let st2 : FetchSt := { st1 with total := totalStepFn st1.total (infoTotal dm) }
    let (items2, seen2, got) := addCards parser (cardsOf dm) st2.items st2.seen
    ({ st2 with items := items2, seen := seen2 }, got ≠ 0)

/-- The page loop of `fetch_endpoint_items`: pages `p, p+1, ...` with
`fuel` pages remaining; stops on malformed `data` or on a page whose
`got` is zero.  `pages` abstracts the successive `cli.get_json` payloads
(a `get_json` exception would abort the whole fetch and is handled at
the `process_keyword` level). -/
def fetchLoop (pages : Nat → JVal) (parser : ParserKind) :
    Nat → Nat → FetchSt → FetchSt
  | _, 0, st => st
  | p, fuel + 1, st =>
    let r := pageStep parser (pages p) st
    if r.2 then fetchLoop pages parser (p + 1) fuel r.1 else r.1

/-- `fetch_endpoint_items(cli, raw_query, endpoint)`: pages run from 1 to
`maxPages`. -/
def fetchEndpointItems (pages : Nat → JVal) (parser : ParserKind)
    (maxPages : Nat) : FetchSt :=
  fetchLoop pages parser 1 maxPages ⟨[], [], none, 0⟩

/-- Identity key of a collected item: its `"uid"` entry (the mapper
parsers write a string uid into every item). -/
def uidOf (item : JVal) : String :=
  match item with
  | jobj m =>
    match pyLookup m "uid" with
    | jstr s => s
    | _ => ""
  | _ => ""

/-! ## KeywordProcessor (`process_keyword`)

Network effects are abstracted by an oracle giving, per (account name,
raw query, endpoint), either the `(items, total)` pair a successful
`fetch_endpoint_items` call returns or the message of the exception the
fetch raised (`TransportError` / `RiskControlBlockedError` / api error,
all caught alike by `process_keyword`). -/

/-- Result oracle for one `fetch_endpoint_items(cli, raw_query, endpoint)`
call. -/
abbrev FetchOracle := String → String → ApiEndpoint → Except String (List JVal × Option Int)

/-- An `Outcome` record as returned by `process_keyword`: the `keyword`
and `found` entries, the payload dict (`default_payload` after the
endpoint updates and the `host` rewrite), and the `_account` / `_ok` /
`_error` internals. -/
structure Outcome where
  keyword : String
  found : Bool
  payload : PyDict
  account : String
  ok : Bool
  error : String
deriving Repr

/-- The flags of `args` consumed by `process_keyword`. -/
structure ProcArgs where
  maxRetries : Nat
  allowEmptyContrib : Bool
  strictAccountIsolation : Bool
  fallbackToOtherAccounts : Bool
deriving Repr

/-- `tpl.replace("{keyword}", keyword)`: substitute every non-overlapping
occurrence of the placeholder, left to right (`Char.ofNat 123` / `125`
are the opening and closing brace). -/
def substKeywordChars (kw : List Char) : List Char → List Char
  | [] => []
  | c :: k :: e :: y :: w :: o :: r :: d :: cb :: rest2 =>
    if c == Char.ofNat 123 && k == 'k' && e == 'e' && y == 'y' && w == 'w' &&
        o == 'o' && r == 'r' && d == 'd' && cb == Char.ofNat 125 then
      kw ++ substKeywordChars kw rest2
    else c :: substKeywordChars kw (k :: e :: y :: w :: o :: r :: d :: cb :: rest2)
  | c :: rest => c :: substKeywordChars kw rest

/-- Python whitespace for `.strip()` (ASCII subset). -/
def isPySpace (c : Char) : Bool :=
  c == ' ' || c == Char.ofNat 9 || c == Char.ofNat 10 ||
    c == Char.ofNat 11 || c == Char.ofNat 12 || c == Char.ofNat 13

/-- Drop leading whitespace. -/
def dropLeadingSpace : List Char → List Char
  | [] => []
  | c :: rest => if isPySpace c then dropLeadingSpace rest else c :: rest

/-- `.strip()`: drop whitespace at both ends. -/
def pyStrip (s : List Char) : List Char :=
  (dropLeadingSpace (dropLeadingSpace s.reverse).reverse)

/-- `build_query_variants(keyword, templates)`: substitute, strip, drop
empty and duplicate renders preserving order. -/
def buildQueryVariants (keyword : String) : List String → List String → List String
  | [], out => out
  | tpl :: rest, out =>
    let q := String.mk (pyStrip (substKeywordChars keyword.data tpl.data))
    if q = "" ∨ q ∈ out then buildQueryVariants keyword rest out
    else buildQueryVariants keyword rest (out ++ [q])

/-- The initial `default_payload` literal. -/
def defaultPayload : PyDict :=
  [("media_publish_count", jnull), ("host", jstr ""),
   ("publish_media_list", jarr []), ("top_contributors", jarr [])]

/-- `str(x.get("screen_name") or x.get("name") or "")`. -/
def screenNameOrName (fm : PyDict) : String :=
  let sn := pyLookup fm "screen_name"
  let nm := pyLookup fm "name"
  if pyTruthy sn then pyStr sn else if pyTruthy nm then pyStr nm else ""

/-- The fallback scan of `extract_host` over `payload.values()`. -/
def extractHostScan : PyDict → String
  | [] => ""
  | (_, v) :: rest =>
    match v with
    | jarr (jobj fm :: _) =>
      let host := screenNameOrName fm
      if host = "" then extractHostScan rest else host
    | _ => extractHostScan rest

/-- `extract_host(result_payload)`: prefer `publish_media_list[0]`, else
the first value whose first element yields a nonempty name. -/
def extractHost (payload : PyDict) : String :=
  match pyLookup payload "publish_media_list" with
  | jarr (jobj fm :: _) => screenNameOrName fm
  | _ => extractHostScan payload

/-- The endpoint loop of one variant attempt: build `endpoint_payload`,
stopping at the first endpoint whose fetch raises.  Writes the items
under `output_field` and, when `total_field` is nonempty, the total (as
an int or `None`) under `total_field`. -/
def fetchEndpointsAcc (oracle : FetchOracle) (acc q : String) :
    List ApiEndpoint → PyDict → Except String PyDict
  | [], epay => .ok epay
  | ep :: rest, epay =>
    match oracle acc q ep with
    | .error e => .error e
    | .ok (items, total) =>
      let epay1 := pyDictSet epay ep.outputField (jarr items)
      let epay2 :=
        if ep.totalField = "" then epay1
        else
          pyDictSet epay1 ep.totalField
            (match total with | some n => jint n | none => jnull)
      fetchEndpointsAcc oracle acc q rest epay2

/-- The variant loop body: `Except.error` models the exception escaping
to the per-account handler (either a fetch failure on the last variant
or the `RuntimeError("contributors empty")` policy failure), `.ok none`
the fall-through of an empty variant list, `.ok (some o)` an accepted
outcome returned to the caller. -/
def tryVariants (oracle : FetchOracle) (acc : String)
    (endpoints : List ApiEndpoint) (allowEmptyContrib : Bool) (keyword : String) :
    List String → Except String (Option Outcome)
  | [] => .ok none
  | q :: rest =>
    let isLast := rest.isEmpty
    match fetchEndpointsAcc oracle acc q endpoints [] with
    | .error e =>
      if isLast then .error e
      else tryVariants oracle acc endpoints allowEmptyContrib keyword rest
    | .ok epay =>
      let dp := pyDictUpdate defaultPayload epay
      let contribVal := pyLookup dp "top_contributors"
      let hasContrib := endpoints.any (fun ep => ep.outputField == "top_contributors")
      let found := endpoints.any (fun ep => pyTruthy (pyLookup dp ep.outputField))
      if hasContrib && !pyTruthy contribVal && !allowEmptyContrib then
        if isLast then .error "RuntimeError: contributors empty"
        else tryVariants oracle acc endpoints allowEmptyContrib keyword rest
      else
        let dp2 := pyDictSet dp "host" (jstr (extractHost dp))
        .ok (some ⟨keyword, found, dp2, acc, true, ""⟩)

/-- The account loop of one attempt, threading `last_err` and
`last_account` (an exception records both; the empty-variant
fall-through records neither; the backoff sleep has no observable
effect beyond time and is not modelled). -/
def tryAccounts (oracle : FetchOracle) (endpoints : List ApiEndpoint)
    (allowEmptyContrib : Bool) (keyword : String) (variants : List String) :
    List String → String → String → Option Outcome × String × String
  | [], lastErr, lastAcc => (none, lastErr, lastAcc)
  | acc :: rest, lastErr, lastAcc =>
    match tryVariants oracle acc endpoints allowEmptyContrib keyword variants with
    | .ok (some o) => (some o, lastErr, lastAcc)
    | .ok none => tryAccounts oracle endpoints allowEmptyContrib keyword variants rest lastErr lastAcc
    | .error e => tryAccounts oracle endpoints allowEmptyContrib keyword variants rest e acc

/-- The `for attempt in range(1, max_retries + 1)` loop. -/
def tryAttempts (oracle : FetchOracle) (endpoints : List ApiEndpoint)
    (allowEmptyContrib : Bool) (keyword : String) (variants : List String)
    (activeOrd : List String) :
    Nat → String → String → Option Outcome × String × String
  | 0, lastErr, lastAcc => (none, lastErr, lastAcc)
  | n + 1, lastErr, lastAcc =>
    match tryAccounts oracle endpoints allowEmptyContrib keyword variants activeOrd lastErr lastAcc with
    | (some o, le, la) => (some o, le, la)
    | (none, le, la) => tryAttempts oracle endpoints allowEmptyContrib keyword variants activeOrd n le la

/-- `idx = int(hashlib.md5(keyword.encode("utf-8")).hexdigest(), 16) % len(clients)`. -/
def primaryIdx (keyword : String) (n : Nat) : Nat :=
  md5Int keyword % n

/-- `order = [clients[(idx + i) % len(clients)] for i in range(len(clients))]`
(clients are identified by account name). -/
def accountOrder (keyword : String) (clients : List String) : List String :=
  (List.range clients.length).map
    (fun i => clients.getD ((primaryIdx keyword clients.length + i) % clients.length) "")

/-- The active order: all rotated accounts when fallback is effective,
the single primary otherwise (`strict_account_isolation` forces fallback
off). -/
def activeOrder (args : ProcArgs) (keyword : String) (clients : List String) : List String :=
  let order := accountOrder keyword clients
  let fallbackMode := if args.strictAccountIsolation then false else args.fallbackToOtherAccounts
  if fallbackMode then order else [order.getD 0 ""]

/-- The failure `Outcome` literal returned when every attempt was
exhausted. -/
def failureOutcome (keyword lastErr lastAcc : String) : Outcome :=
  ⟨keyword, false, defaultPayload, lastAcc, false, if lastErr = "" then "unknown" else lastErr⟩

/-- `process_keyword(keyword, clients, args, endpoints, query_templates)`.
Defined for a nonempty client list (Python would raise
`ZeroDivisionError` on an empty one; `main_async` guarantees at least
one account). -/
def processKeyword (oracle : FetchOracle) (keyword : String)
    (clients : List String) (args : ProcArgs) (endpoints : List ApiEndpoint)
    (templates : List String) : Outcome :=
  let variants := buildQueryVariants keyword templates []
  match tryAttempts oracle endpoints args.allowEmptyContrib keyword variants
      (activeOrder args keyword clients) args.maxRetries "" "" with
  | (some o, _, _) => o
  | (none, lastErr, lastAcc) => failureOutcome keyword lastErr lastAcc

/-! ## AccountClient (`get_json` payload classification and rate limiting) -/

/-- How `get_json` disposes of a successfully parsed payload. -/
inductive GetJsonResult where
  | riskBlocked
  | apiError
  | success (payload : JVal)
deriving Repr

/-- `AccountClient._is_risk_blocked(payload)`: a dict whose `ok` or
`errno` equals the sentinel `-100` (numeric equality, so `-100.0`
matches too). -/
def isRiskBlocked (payload : JVal) : Bool :=
  isObj payload &&
    (match payload with
     | jobj m => pyEqInt (pyLookup m "ok") (-100) || pyEqInt (pyLookup m "errno") (-100)
     | _ => false)

/-- `isinstance(v, (int, float)) and v < 0` (Python `bool` is an `int`
with values 0/1, never negative). -/
def pyNumNeg (v : JVal) : Bool :=
  match v with
  | jint n => n < 0
  | jfloat q => q < 0
  | jbool _ => false
  | _ => false

/-- `isinstance(v, int) and v < 0`. -/
def pyIntNeg (v : JVal) : Bool :=
  match v with
  | jint n => n < 0
  | jbool _ => false
  | _ => false

/-- The payload-inspection tail of `AccountClient.get_json` (after
`raise_for_status` and JSON parsing, which correspond to the transport
layer): risk-control sentinel first, then the negative `ok`/`errno`
checks, else the payload is returned unchanged. -/
def classifyPayload (payload : JVal) : GetJsonResult :=
  if isRiskBlocked payload then .riskBlocked
  else
    match payload with
    | jobj m =>
      let okVal := pyLookup m "ok"
      let errnoVal := pyLookup m "errno"
      if pyNumNeg okVal then .apiError
      else if pyIntNeg errnoVal then .apiError
      else .success payload
    | _ => .success payload

/-- `max(0.01, float(self.account.qps))`. -/
def clampQps (qps : ℚ) : ℚ := max 0.01 qps

/-- `interval = 1.0 / max(0.01, float(self.account.qps))`. -/
def minInterval (qps : ℚ) : ℚ := 1 / clampQps qps

/-- The `_next_ts` cell of one `AccountClient`. -/
structure RateState where
  nextTs : ℚ
deriving Repr

/-- One rate-limited `get_json` under the per-client lock, on a fake
clock: `now` is the `time.time()` observation on entry; the request is
issued right after sleeping until `_next_ts` when that lies in the
future, so the issue instant is `max now nextTs`; `_next_ts` is then
rescheduled one interval later.  The `asyncio.Lock` serializes the whole
compute-wait/issue/reschedule sequence, so concurrent callers compose
sequentially. -/
def rateStep (qps : ℚ) (now : ℚ) (st : RateState) : ℚ × RateState :=
  let issue := max now st.nextTs
  (issue, ⟨issue + minInterval qps⟩)

/-- The issue instants of a serialized sequence of `get_json` calls,
given the entry-time observations. -/
def rateRun (qps : ℚ) : List ℚ → RateState → List ℚ
  | [], _ => []
  | now :: rest, st =>
    let (t, st2) := rateStep qps now st
    t :: rateRun qps rest st2

/-! ## CheckpointStore (`init_db`, `persist_result`, `get_done_keywords`) -/

/-- A `task_state` row (`keyword` is the primary key). -/
structure TaskRow where
  keyword : String
  status : String
  retries : Int
  error : String
  updatedAt : Int
deriving Repr, DecidableEq

/-- The public (non-underscore) part of a persisted Outcome, as written
into `result_store.payload` and the JSONL log. -/
structure PublicItem where
  keyword : String
  found : Bool
  payload : PyDict
deriving Repr

/-- A `result_store` row (`keyword` is the primary key). -/
structure ResultRow where
  keyword : String
  payload : PublicItem
  updatedAt : Int
deriving Repr

/-- The persistent state: the two SQLite tables plus the append-only
JSONL output (log entries modelled as the serialized values). -/
structure Store where
  taskState : List TaskRow
  resultStore : List ResultRow
  log : List PublicItem
deriving Repr

/-- `{k: v for k, v in item.items() if not k.startswith("_")}` on an
Outcome record: keyword, found and the payload dict survive; `_account`,
`_ok`, `_error` are dropped. -/
def publicItem (o : Outcome) : PublicItem :=
  ⟨o.keyword, o.found, o.payload⟩

/-- `INSERT ... ON CONFLICT(keyword) DO UPDATE` on `task_state`: replace
in place when the key exists, append otherwise. -/
def upsertTask (row : TaskRow) : List TaskRow → List TaskRow
  | [] => [row]
  | r :: rest =>
    if r.keyword = row.keyword then row :: rest else r :: upsertTask row rest

/-- `INSERT ... ON CONFLICT(keyword) DO UPDATE` on `result_store`. -/
def upsertResult (row : ResultRow) : List ResultRow → List ResultRow
  | [] => [row]
  | r :: rest =>
    if r.keyword = row.keyword then row :: rest else r :: upsertResult row rest

/-- `persist_result(conn, output, item)`: upsert the result row, upsert
the status row (status `success` iff `found is True`, retries 0, error
`_error`), append the public payload to the log. -/
def persistResult (s : Store) (o : Outcome) (now : Int) : Store :=
  let status := if o.found then "success" else "failed"
  { taskState := upsertTask ⟨o.keyword, status, 0, o.error, now⟩ s.taskState,
    resultStore := upsertResult ⟨o.keyword, publicItem o, now⟩ s.resultStore,
    log := s.log ++ [publicItem o] }

/-- `get_done_keywords(conn)`: keywords whose status is `success`. -/
def doneKeywords (s : Store) : List String :=
  (s.taskState.filter (fun r => r.status = "success")).map (fun r => r.keyword)

/-- Store states reachable from the freshly initialized database through
`persist_result` calls. -/
inductive ReachableStore : Store → Prop where
  | init : ReachableStore ⟨[], [], []⟩
  | step (s : Store) (o : Outcome) (now : Int) :
      ReachableStore s → ReachableStore (persistResult s o now)

/-! ## Scheduler worker body (`run_one_keyword`) -/

/-- The flags of `args` consumed by `run_one_keyword` on top of the
`process_keyword` ones. -/
structure RunArgs extends ProcArgs where
  refreshOnNotFound : Bool
  retryFalseAfterVerify : Bool
deriving Repr

/-- `run_one_keyword(kw)`: process, enter the verify gate when
`refresh_on_not_found` is set and the outcome has `found is False`
(`handle_not_found_gate` is external pausing behaviour; the claim
conditions on the gate completing, i.e. reaching CLEARED, after which
control returns here), optionally reprocess once, persist the final
record.  `oracle1`/`oracle2` are the fetch worlds seen by the first and
the retried `process_keyword` call; the result counts the
`process_keyword` invocations and carries the persisted outcome and
store. -/
def runOneKeyword (args : RunArgs) (oracle1 oracle2 : FetchOracle)
    (keyword : String) (clients : List String) (endpoints : List ApiEndpoint)
    (templates : List String) (store : Store) (now : Int) :
    Nat × Outcome × Store :=
  let result := processKeyword oracle1 keyword clients args.toProcArgs endpoints templates
  if args.refreshOnNotFound && !result.found then
    if args.retryFalseAfterVerify then
      let retry := processKeyword oracle2 keyword clients args.toProcArgs endpoints templates
      (2, retry, persistResult store retry now)
    else (1, result, persistResult store result now)
  else (1, result, persistResult store result now)

/-! ## Rate-limiter lemmas and claim C4 -/

/-- Whatever happens next, the first issue instant of a run is no earlier
than the scheduled `_next_ts`. -/
lemma rateRun_head_ge (qps : ℚ) (nows : List ℚ) (st : RateState) (t : ℚ)
    (h : (rateRun qps nows st).head? = some t) : st.nextTs ≤ t := by
  cases nows with
  | nil => simp [rateRun] at h
  | cons n rest =>
    simp only [rateRun, rateStep, List.head?_cons, Option.some.injEq] at h
    subst h
    exact le_max_right _ _

/-- Consecutive issue instants are always at least one interval apart. -/
lemma rateRun_chain (qps : ℚ) (nows : List ℚ) (st : RateState) :
    List.Chain' (fun a b => a + minInterval qps ≤ b) (rateRun qps nows st) := by
  induction nows generalizing st with
  | nil => simp [rateRun]
  | cons n rest ih =>
    simp only [rateRun, rateStep]
    rw [List.chain'_cons']
    refine ⟨fun y hy => ?_, ih _⟩
    exact rateRun_head_ge qps rest ⟨max n st.nextTs + minInterval qps⟩ y hy

/-- Claim C4, counterexample: with a configured rate of 1/200 requests
per second the code clamps the rate to 0.01, so two back-to-back fetches
are issued 100 s apart, which is less than 1/R = 200 s — the claim as
stated fails for rates below 0.01. -/
theorem rate_limit_claim_counterexample :
    rateRun (1/200 : ℚ) [0, 0] ⟨0⟩ = [0, 100] ∧
    (100 : ℚ) - 0 < 1 / (1/200 : ℚ) := by
  constructor
  · show rateRun (1/200 : ℚ) [0, 0] ⟨0⟩ = [0, 100]
    norm_num [rateRun, rateStep, minInterval, clampQps]
  · norm_num

/-- Claim C4 (amended): on the serialized issue instants of one
`AccountClient` (the per-client `asyncio.Lock` makes the whole
compute-wait/issue/reschedule sequence atomic, so concurrent callers
compose sequentially), consecutive fetches are never issued less than
`1 / max(0.01, R)` seconds apart; in particular, whenever the configured
rate R is at least 0.01, they are never less than `1/R` apart. -/
theorem rate_limit_spacing (qps : ℚ) (nows : List ℚ) (st : RateState) :
    List.Chain' (fun a b => a + minInterval qps ≤ b) (rateRun qps nows st) ∧
    (1/100 ≤ qps →
      List.Chain' (fun a b => a + 1 / qps ≤ b) (rateRun qps nows st)) := by
  refine ⟨rateRun_chain qps nows st, fun h => ?_⟩
  have hmi : minInterval qps = 1 / qps := by
    unfold minInterval clampQps
    rw [max_eq_right (by norm_num at h ⊢; linarith)]
  rw [← hmi]
  exact rateRun_chain qps nows st

/-- Witness for C4 (amended), at the default per-account rate 2.0. -/
theorem rate_limit_spacing_witness :
    (1/100 : ℚ) ≤ 2 ∧
    List.Chain' (fun a b => a + 1 / (2 : ℚ) ≤ b) (rateRun 2 [0, 0, 10] ⟨0⟩) :=
  ⟨by norm_num, (rate_limit_spacing 2 [0, 0, 10] ⟨0⟩).2 (by norm_num)⟩

/-! ## Checkpoint-store lemmas and claims C5, C9, C10 -/

/-- Key invariant of a SQLite table with `keyword` as primary key. -/
def storeWF (s : Store) : Prop :=
  (s.taskState.map TaskRow.keyword).Nodup ∧
  (s.resultStore.map ResultRow.keyword).Nodup

lemma filter_eq_nil_of_not_mem_task (kw : String) (l : List TaskRow)
    (h : kw ∉ l.map TaskRow.keyword) :
    l.filter (fun r => r.keyword == kw) = [] := by
  induction l with
  | nil => rfl
  | cons r rest ih =>
    simp only [List.map_cons, List.mem_cons] at h
    push_neg at h
    simp [List.filter_cons, Ne.symm h.1, ih h.2]

lemma mem_keys_upsertTask (row : TaskRow) (k : String) (l : List TaskRow) :
    k ∈ (upsertTask row l).map TaskRow.keyword ↔
      k = row.keyword ∨ k ∈ l.map TaskRow.keyword := by
  induction l with
  | nil => simp [upsertTask]
  | cons r rest ih =>
    by_cases h : r.keyword = row.keyword
    · simp only [upsertTask, if_pos h, List.map_cons, List.mem_cons, ih]
      constructor
      · rintro (rfl | hk)
        · exact Or.inl rfl
        · exact Or.inr (Or.inr hk)
      · rintro (rfl | h2 | hk)
        · exact Or.inl rfl
        · exact Or.inl (h2.trans h)
        · exact Or.inr hk
    · simp only [upsertTask, if_neg h, List.map_cons, List.mem_cons, ih]
      tauto

lemma keys_nodup_upsertTask (row : TaskRow) (l : List TaskRow)
    (h : (l.map TaskRow.keyword).Nodup) :
    ((upsertTask row l).map TaskRow.keyword).Nodup := by
  induction l with
  | nil => simp [upsertTask]
  | cons r rest ih =>
    simp only [List.map_cons, List.nodup_cons] at h
    by_cases hk : r.keyword = row.keyword
    · simp only [upsertTask, if_pos hk, List.map_cons, List.nodup_cons]
      exact ⟨hk ▸ h.1, h.2⟩
    · simp only [upsertTask, if_neg hk, List.map_cons, List.nodup_cons]
      refine ⟨fun hmem => ?_, ih h.2⟩
      rcases (mem_keys_upsertTask row r.keyword rest).1 hmem with heq | hmem2
      · exact hk heq
      · exact h.1 hmem2

lemma filter_upsertTask_len (row : TaskRow) (l : List TaskRow)
    (h : (l.map TaskRow.keyword).Nodup) :
    ((upsertTask row l).filter (fun r => r.keyword == row.keyword)).length = 1 := by
  induction l with
  | nil => simp [upsertTask]
  | cons r rest ih =>
    simp only [List.map_cons, List.nodup_cons] at h
    by_cases hk : r.keyword = row.keyword
    · simp only [upsertTask, if_pos hk]
      have : rest.filter (fun r => r.keyword == row.keyword) = [] :=
        filter_eq_nil_of_not_mem_task _ _ (hk ▸ h.1)
      simp [List.filter_cons, this]
    · simp only [upsertTask, if_neg hk]
      simp [List.filter_cons, hk, ih h.2]

lemma filter_eq_nil_of_not_mem_result (kw : String) (l : List ResultRow)
    (h : kw ∉ l.map ResultRow.keyword) :
    l.filter (fun r => r.keyword == kw) = [] := by
  induction l with
  | nil => rfl
  | cons r rest ih =>
    simp only [List.map_cons, List.mem_cons] at h
    push_neg at h
    simp [List.filter_cons, Ne.symm h.1, ih h.2]

lemma mem_keys_upsertResult (row : ResultRow) (k : String) (l : List ResultRow) :
    k ∈ (upsertResult row l).map ResultRow.keyword ↔
      k = row.keyword ∨ k ∈ l.map ResultRow.keyword := by
  induction l with
  | nil => simp [upsertResult]
  | cons r rest ih =>
    by_cases h : r.keyword = row.keyword
    · simp only [upsertResult, if_pos h, List.map_cons, List.mem_cons, ih]
      constructor
      · rintro (rfl | hk)
        · exact Or.inl rfl
        · exact Or.inr (Or.inr hk)
      · rintro (rfl | h2 | hk)
        · exact Or.inl rfl
        · exact Or.inl (h2.trans h)
        · exact Or.inr hk
    · simp only [upsertResult, if_neg h, List.map_cons, List.mem_cons, ih]
      tauto

lemma keys_nodup_upsertResult (row : ResultRow) (l : List ResultRow)
    (h : (l.map ResultRow.keyword).Nodup) :
    ((upsertResult row l).map ResultRow.keyword).Nodup := by
  induction l with
  | nil => simp [upsertResult]
  | cons r rest ih =>
    simp only [List.map_cons, List.nodup_cons] at h
    by_cases hk : r.keyword = row.keyword
    · simp only [upsertResult, if_pos hk, List.map_cons, List.nodup_cons]
      exact ⟨hk ▸ h.1, h.2⟩
    · simp only [upsertResult, if_neg hk, List.map_cons, List.nodup_cons]
      refine ⟨fun hmem => ?_, ih h.2⟩
      rcases (mem_keys_upsertResult row r.keyword rest).1 hmem with heq | hmem2
      · exact hk heq
      · exact h.1 hmem2

lemma filter_upsertResult_len (row : ResultRow) (l : List ResultRow)
    (h : (l.map ResultRow.keyword).Nodup) :
    ((upsertResult row l).filter (fun r => r.keyword == row.keyword)).length = 1 := by
  induction l with
  | nil => simp [upsertResult]
  | cons r rest ih =>
    simp only [List.map_cons, List.nodup_cons] at h
    by_cases hk : r.keyword = row.keyword
    · simp only [upsertResult, if_pos hk]
      have : rest.filter (fun r => r.keyword == row.keyword) = [] :=
        filter_eq_nil_of_not_mem_result _ _ (hk ▸ h.1)
      simp [List.filter_cons, this]
    · simp only [upsertResult, if_neg hk]
      simp [List.filter_cons, hk, ih h.2]

/-- Claim C5: `persist_result` is idempotent on the two tables but not
on the log — persisting the same keyword twice leaves exactly one
`task_state` row and exactly one `result_store` row for it, while the
append-only JSONL log grows by exactly one entry per call. -/
theorem persist_result_idempotent (s : Store) (o : Outcome) (now1 now2 : Int)
    (hwf : storeWF s) :
    ((persistResult (persistResult s o now1) o now2).taskState.filter
        (fun r => r.keyword == o.keyword)).length = 1 ∧
    ((persistResult (persistResult s o now1) o now2).resultStore.filter
        (fun r => r.keyword == o.keyword)).length = 1 ∧
    (persistResult s o now1).log.length = s.log.length + 1 ∧
    (persistResult (persistResult s o now1) o now2).log.length = s.log.length + 2 ∧
    storeWF (persistResult (persistResult s o now1) o now2) := by
  obtain ⟨h1, h2⟩ := hwf
  have ht1 := keys_nodup_upsertTask
    ⟨o.keyword, if o.found then "success" else "failed", 0, o.error, now1⟩ _ h1
  have hr1 := keys_nodup_upsertResult ⟨o.keyword, publicItem o, now1⟩ _ h2
  refine ⟨?_, ?_, by simp [persistResult], by simp [persistResult], ?_, ?_⟩
  · exact filter_upsertTask_len
      ⟨o.keyword, if o.found then "success" else "failed", 0, o.error, now2⟩ _ ht1
  · exact filter_upsertResult_len ⟨o.keyword, publicItem o, now2⟩ _ hr1
  · exact keys_nodup_upsertTask _ _ ht1
  · exact keys_nodup_upsertResult _ _ hr1

/-- A concrete accepted Outcome used by the store witnesses. -/
def cOutcome : Outcome :=
  ⟨"kw", true, defaultPayload, "a1", true, ""⟩

/-- A concrete not-found but error-free Outcome (all endpoints empty,
`_ok = True`). -/
def cOutcomeNotFound : Outcome :=
  ⟨"kw", false, defaultPayload, "a1", true, ""⟩

/-- Witness for C5 on the freshly initialized store. -/
theorem persist_result_idempotent_witness :
    storeWF ⟨[], [], []⟩ ∧
    (((persistResult (persistResult ⟨[], [], []⟩ cOutcome 1) cOutcome 2).taskState.filter
        (fun r => r.keyword == cOutcome.keyword)).length = 1 ∧
     ((persistResult (persistResult ⟨[], [], []⟩ cOutcome 1) cOutcome 2).resultStore.filter
        (fun r => r.keyword == cOutcome.keyword)).length = 1 ∧
     (persistResult ⟨[], [], []⟩ cOutcome 1).log.length = ([] : List PublicItem).length + 1 ∧
     (persistResult (persistResult ⟨[], [], []⟩ cOutcome 1) cOutcome 2).log.length =
       ([] : List PublicItem).length + 2 ∧
     storeWF (persistResult (persistResult ⟨[], [], []⟩ cOutcome 1) cOutcome 2)) :=
  ⟨by simp [storeWF], persist_result_idempotent ⟨[], [], []⟩ cOutcome 1 2 (by simp [storeWF])⟩

/-- The status recorded for a keyword. -/
def taskStatus (s : Store) (kw : String) : Option String :=
  (s.taskState.find? (fun r => r.keyword == kw)).map TaskRow.status

lemma find?_upsertTask (row : TaskRow) (kw : String) (hkw : row.keyword = kw)
    (l : List TaskRow) :
    (upsertTask row l).find? (fun r => r.keyword == kw) = some row := by
  induction l with
  | nil => simp [upsertTask, List.find?, hkw]
  | cons r rest ih =>
    by_cases hk : r.keyword = row.keyword
    · have h2 : r.keyword = kw := hk.trans hkw
      simp [upsertTask, h2, hkw, List.find?]
    · have hne : r.keyword ≠ kw := fun h => hk (h.trans hkw.symm)
      simp [upsertTask, if_neg hk, List.find?_cons, hne, ih]

lemma unique_row_upsertTask (row : TaskRow) (l : List TaskRow)
    (h : (l.map TaskRow.keyword).Nodup) :
    ∀ r ∈ upsertTask row l, r.keyword = row.keyword → r = row := by
  induction l with
  | nil =>
    intro r hr _
    simpa [upsertTask] using hr
  | cons x rest ih =>
    simp only [List.map_cons, List.nodup_cons] at h
    intro r hr hkw
    by_cases hk : x.keyword = row.keyword
    · simp only [upsertTask, if_pos hk, List.mem_cons] at hr
      rcases hr with rfl | hr2
      · rfl
      · exfalso
        exact h.1 (hk ▸ hkw ▸ List.mem_map_of_mem TaskRow.keyword hr2)
    · simp only [upsertTask, if_neg hk, List.mem_cons] at hr
      rcases hr with rfl | hr2
      · exact absurd hkw hk
      · exact ih h.2 r hr2 hkw

/-- Claim C9: the persisted status is `success` iff the Outcome's
`found` flag is exactly `true`; an error-free Outcome with `found=false`
is persisted as `failed` and stays outside `get_done_keywords`, hence
eligible for re-processing in every later round. -/
theorem persist_status_iff_found (s : Store) (o : Outcome) (now : Int)
    (hwf : (s.taskState.map TaskRow.keyword).Nodup) :
    (taskStatus (persistResult s o now) o.keyword = some "success" ↔ o.found = true) ∧
    (o.ok = true → o.found = false →
      taskStatus (persistResult s o now) o.keyword = some "failed" ∧
      o.keyword ∉ doneKeywords (persistResult s o now)) := by
  have hfind := find?_upsertTask
    ⟨o.keyword, if o.found then "success" else "failed", 0, o.error, now⟩
    o.keyword rfl s.taskState
  constructor
  · simp only [taskStatus, persistResult, hfind, Option.map_some]
    cases o.found <;> simp
  · intro _ hnf
    constructor
    · simp only [taskStatus, persistResult, hfind, Option.map_some]
      simp [hnf]
    · intro hmem
      simp only [doneKeywords, persistResult, List.mem_map] at hmem
      obtain ⟨r, hrmem, hrkw⟩ := hmem
      rw [List.mem_filter] at hrmem
      have hr := unique_row_upsertTask _ _ hwf r hrmem.1 (by simpa using hrkw)
      subst hr
      simp only [hnf] at hrmem
      simp at hrmem

/-- Witness for C9: an error-free `found=false` Outcome lands as
`failed` on the fresh store. -/
theorem persist_status_iff_found_witness :
    ((([] : List TaskRow).map TaskRow.keyword).Nodup ∧
      cOutcomeNotFound.ok = true ∧ cOutcomeNotFound.found = false) ∧
    (taskStatus (persistResult ⟨[], [], []⟩ cOutcomeNotFound 1) cOutcomeNotFound.keyword =
        some "failed" ∧
      cOutcomeNotFound.keyword ∉ doneKeywords (persistResult ⟨[], [], []⟩ cOutcomeNotFound 1)) :=
  ⟨⟨List.nodup_nil, rfl, rfl⟩,
    (persist_status_iff_found ⟨[], [], []⟩ cOutcomeNotFound 1 List.nodup_nil).2 rfl rfl⟩

lemma mem_upsertTask (row : TaskRow) (l : List TaskRow) (r : TaskRow)
    (h : r ∈ upsertTask row l) : r = row ∨ r ∈ l := by
  induction l with
  | nil =>
    simpa [upsertTask] using h
  | cons x rest ih =>
    by_cases hk : x.keyword = row.keyword
    · simp only [upsertTask, if_pos hk, List.mem_cons] at h
      rcases h with rfl | h2
      · exact Or.inl rfl
      · exact Or.inr (List.mem_cons_of_mem x h2)
    · simp only [upsertTask, if_neg hk, List.mem_cons] at h
      rcases h with rfl | h2
      · exact Or.inr (List.mem_cons_self _ _)
      · rcases ih h2 with h3 | h3
        · exact Or.inl h3
        · exact Or.inr (List.mem_cons_of_mem x h3)

/-- Claim C10: `persist_result` always writes `retries = 0` (both on
insert and on conflict-update), so every reachable store state has
`retries = 0` in every `task_state` row. -/
theorem task_state_retries_zero (s : Store) (h : ReachableStore s) :
    ∀ r ∈ s.taskState, r.retries = 0 := by
  induction h with
  | init => simp
  | step s o now _ ih =>
    intro r hr
    simp only [persistResult] at hr
    rcases mem_upsertTask _ _ _ hr with rfl | h2
    · rfl
    · exact ih r h2

/-- Witness for C10 after one persisted attempt. -/
theorem task_state_retries_zero_witness :
    ReachableStore (persistResult ⟨[], [], []⟩ cOutcome 1) ∧
    ∀ r ∈ (persistResult ⟨[], [], []⟩ cOutcome 1).taskState, r.retries = 0 :=
  ⟨ReachableStore.step _ _ _ ReachableStore.init,
    task_state_retries_zero _ (ReachableStore.step _ _ _ ReachableStore.init)⟩

/-! ## Payload classification lemmas and claim C6 -/

lemma pyEqInt_neg100_iff (v : JVal) :
    pyEqInt v (-100) = true ↔ (v = jint (-100) ∨ v = jfloat (-100 : ℚ)) := by
  cases v with
  | jbool b => cases b <;> simp [pyEqInt]
  | jint n => simp [pyEqInt]
  | jfloat q => simp [pyEqInt]
  | _ => simp [pyEqInt]

lemma pyNumNeg_iff (v : JVal) :
    pyNumNeg v = true ↔
      (∃ n : Int, v = jint n ∧ n < 0) ∨ (∃ q : ℚ, v = jfloat q ∧ q < 0) := by
  cases v <;> simp [pyNumNeg]

lemma pyIntNeg_iff (v : JVal) :
    pyIntNeg v = true ↔ ∃ n : Int, v = jint n ∧ n < 0 := by
  cases v <;> simp [pyIntNeg]

/-- Claim C6: `get_json` raises the risk-control error exactly when the
payload's `ok` or `errno` equals the sentinel −100 (as int or float),
raises an api error exactly when — outside the sentinel case, which
takes precedence — `ok` is a negative number or `errno` a negative
integer, and otherwise returns the parsed payload unchanged. -/
theorem get_json_classification (payload : JVal) :
    (classifyPayload payload = .riskBlocked ↔
      ∃ m, payload = jobj m ∧
        (pyLookup m "ok" = jint (-100) ∨ pyLookup m "ok" = jfloat (-100 : ℚ) ∨
         pyLookup m "errno" = jint (-100) ∨ pyLookup m "errno" = jfloat (-100 : ℚ))) ∧
    (classifyPayload payload = .apiError ↔
      ∃ m, payload = jobj m ∧
        ¬(pyLookup m "ok" = jint (-100) ∨ pyLookup m "ok" = jfloat (-100 : ℚ) ∨
          pyLookup m "errno" = jint (-100) ∨ pyLookup m "errno" = jfloat (-100 : ℚ)) ∧
        ((∃ n : Int, pyLookup m "ok" = jint n ∧ n < 0) ∨
         (∃ q : ℚ, pyLookup m "ok" = jfloat q ∧ q < 0) ∨
         (∃ n : Int, pyLookup m "errno" = jint n ∧ n < 0))) ∧
    (∀ v, classifyPayload payload = .success v → v = payload) := by
  cases payload with
  | jobj m =>
    have hsent : isRiskBlocked (jobj m) = true ↔
        (pyLookup m "ok" = jint (-100) ∨ pyLookup m "ok" = jfloat (-100 : ℚ) ∨
         pyLookup m "errno" = jint (-100) ∨ pyLookup m "errno" = jfloat (-100 : ℚ)) := by
      simp only [isRiskBlocked, isObj, Bool.true_and, Bool.or_eq_true,
        pyEqInt_neg100_iff]
      tauto
    by_cases hr : isRiskBlocked (jobj m) = true
    · refine ⟨?_, ?_, ?_⟩
      · simp only [classifyPayload, hr, if_true]
        exact ⟨fun _ => ⟨m, rfl, hsent.1 hr⟩, fun _ => by trivial⟩
      · simp only [classifyPayload, hr, if_true]
        constructor
        · intro h; cases h
        · rintro ⟨m2, hm2, hnot, _⟩
          cases hm2
          exact absurd (hsent.1 hr) hnot
      · intro v hv
        simp only [classifyPayload, hr, if_true] at hv
        cases hv
    · have hr' : isRiskBlocked (jobj m) = false := by
        simpa using hr
      have hnots : ¬(pyLookup m "ok" = jint (-100) ∨ pyLookup m "ok" = jfloat (-100 : ℚ) ∨
          pyLookup m "errno" = jint (-100) ∨ pyLookup m "errno" = jfloat (-100 : ℚ)) := by
        intro hs
        exact hr (hsent.2 hs)
      by_cases hok : pyNumNeg (pyLookup m "ok") = true
      · refine ⟨?_, ?_, ?_⟩
        · simp only [classifyPayload, hr', Bool.false_eq_true, if_false, hok, if_true]
          constructor
          · intro h; cases h
          · rintro ⟨m2, hm2, hs⟩
            cases hm2
            exact absurd hs hnots
        · simp only [classifyPayload, hr', Bool.false_eq_true, if_false, hok, if_true]
          refine ⟨fun _ => ⟨m, rfl, hnots, ?_⟩, fun _ => by trivial⟩
          rcases (pyNumNeg_iff _).1 hok with ⟨n, hn, hlt⟩ | ⟨q, hq, hlt⟩
          · exact Or.inl ⟨n, hn, hlt⟩
          · exact Or.inr (Or.inl ⟨q, hq, hlt⟩)
        · intro v hv
          simp only [classifyPayload, hr', Bool.false_eq_true, if_false, hok, if_true] at hv
          cases hv
      · have hok' : pyNumNeg (pyLookup m "ok") = false := by simpa using hok
        by_cases herr : pyIntNeg (pyLookup m "errno") = true
        · refine ⟨?_, ?_, ?_⟩
          · simp only [classifyPayload, hr', Bool.false_eq_true, if_false, hok',
              herr, if_true]
            constructor
            · intro h; cases h
            · rintro ⟨m2, hm2, hs⟩
              cases hm2
              exact absurd hs hnots
          · simp only [classifyPayload, hr', Bool.false_eq_true, if_false, hok',
              herr, if_true]
            refine ⟨fun _ => ⟨m, rfl, hnots, ?_⟩, fun _ => by trivial⟩
            obtain ⟨n, hn, hlt⟩ := (pyIntNeg_iff _).1 herr
            exact Or.inr (Or.inr ⟨n, hn, hlt⟩)
          · intro v hv
            simp only [classifyPayload, hr', Bool.false_eq_true, if_false, hok',
              herr, if_true] at hv
            cases hv
        · have herr' : pyIntNeg (pyLookup m "errno") = false := by simpa using herr
          refine ⟨?_, ?_, ?_⟩
          · simp only [classifyPayload, hr', Bool.false_eq_true, if_false, hok',
              herr', if_false]
            constructor
            · intro h; cases h
            · rintro ⟨m2, hm2, hs⟩
              cases hm2
              exact absurd hs hnots
          · simp only [classifyPayload, hr', Bool.false_eq_true, if_false, hok',
              herr', if_false]
            constructor
            · intro h; cases h
            · rintro ⟨m2, hm2, _, hneg⟩
              cases hm2
              exfalso
              rcases hneg with ⟨n, hn, hlt⟩ | ⟨q, hq, hlt⟩ | ⟨n, hn, hlt⟩
              · rw [hn] at hok'; simp [pyNumNeg] at hok'; omega
              · rw [hq] at hok'; simp [pyNumNeg] at hok'; linarith
              · rw [hn] at herr'; simp [pyIntNeg] at herr'; omega
          · intro v hv
            simp only [classifyPayload, hr', Bool.false_eq_true, if_false, hok',
              herr', if_false, GetJsonResult.success.injEq] at hv
            exact hv.symm
  | jnull =>
    exact ⟨by simp [classifyPayload, isRiskBlocked, isObj], by simp [classifyPayload, isRiskBlocked, isObj],
      by intro v hv; simpa [classifyPayload, isRiskBlocked, isObj] using hv.symm⟩
  | jbool b =>
    exact ⟨by simp [classifyPayload, isRiskBlocked, isObj], by simp [classifyPayload, isRiskBlocked, isObj],
      by intro v hv; simp [classifyPayload, isRiskBlocked, isObj] at hv; exact hv.symm⟩
  | jint n =>
    exact ⟨by simp [classifyPayload, isRiskBlocked, isObj], by simp [classifyPayload, isRiskBlocked, isObj],
      by intro v hv; simp [classifyPayload, isRiskBlocked, isObj] at hv; exact hv.symm⟩
  | jfloat q =>
    exact ⟨by simp [classifyPayload, isRiskBlocked, isObj], by simp [classifyPayload, isRiskBlocked, isObj],
      by intro v hv; simp [classifyPayload, isRiskBlocked, isObj] at hv; exact hv.symm⟩
  | jstr s =>
    exact ⟨by simp [classifyPayload, isRiskBlocked, isObj], by simp [classifyPayload, isRiskBlocked, isObj],
      by intro v hv; simp [classifyPayload, isRiskBlocked, isObj] at hv; exact hv.symm⟩
  | jarr l =>
    exact ⟨by simp [classifyPayload, isRiskBlocked, isObj], by simp [classifyPayload, isRiskBlocked, isObj],
      by intro v hv; simp [classifyPayload, isRiskBlocked, isObj] at hv; exact hv.symm⟩

/-- Witness for C6 at the sentinel payload `{"ok": -100}`. -/
theorem get_json_classification_witness :
    classifyPayload (jobj [("ok", jint (-100))]) = .riskBlocked :=
  (get_json_classification (jobj [("ok", jint (-100))])).1.2
    ⟨[("ok", jint (-100))], rfl, Or.inl (by simp [pyLookup])⟩

/-! ## Claim C7: retry-after-verify replaces the persisted Outcome -/

/-- Claim C7: when `refresh_on_not_found` is set, the first Outcome has
`found=false`, the verify gate completes (CLEARED) and
`retry_false_after_verify` is configured, `process_keyword` runs exactly
one more time and the retried Outcome — whatever its own `found`/`_ok` —
is unconditionally the record persisted, replacing the original. -/
theorem retry_after_verify_replaces (args : RunArgs) (o1 o2 : FetchOracle)
    (kw : String) (clients : List String) (endpoints : List ApiEndpoint)
    (templates : List String) (store : Store) (now : Int)
    (hrf : args.refreshOnNotFound = true) (hrt : args.retryFalseAfterVerify = true)
    (hnf : (processKeyword o1 kw clients args.toProcArgs endpoints templates).found = false) :
    runOneKeyword args o1 o2 kw clients endpoints templates store now =
      (2, processKeyword o2 kw clients args.toProcArgs endpoints templates,
       persistResult store
         (processKeyword o2 kw clients args.toProcArgs endpoints templates) now) := by
  simp [runOneKeyword, hrf, hrt, hnf]

/-- The builtin `media` endpoint under the default page caps. -/
def cMediaEp : ApiEndpoint :=
  ⟨"media", .usersBasic, "publish_media_list", 12, "media_publish_count"⟩

/-- The builtin `contributors` endpoint under the default page caps. -/
def cContribEp : ApiEndpoint :=
  ⟨"contributors", .contributors, "top_contributors", 3, ""⟩

/-- An oracle whose every fetch raises (e.g. a transport timeout). -/
def cFailOracle : FetchOracle := fun _ _ _ => .error "TransportError: timeout"

/-- `run_one_keyword` flags: refresh on not-found and retry after verify. -/
def cRunArgs : RunArgs := ⟨⟨1, false, false, true⟩, true, true⟩

/-- Witness for C7: a keyword whose every attempt fails is reprocessed
once after the gate and the second (still failed) Outcome is persisted. -/
theorem retry_after_verify_replaces_witness :
    (cRunArgs.refreshOnNotFound = true ∧ cRunArgs.retryFalseAfterVerify = true ∧
      (processKeyword cFailOracle "kw" ["a1"] cRunArgs.toProcArgs [cMediaEp]
        ["\x7bkeyword\x7d"]).found = false) ∧
    runOneKeyword cRunArgs cFailOracle cFailOracle "kw" ["a1"] [cMediaEp]
        ["\x7bkeyword\x7d"] ⟨[], [], []⟩ 1 =
      (2, processKeyword cFailOracle "kw" ["a1"] cRunArgs.toProcArgs [cMediaEp]
            ["\x7bkeyword\x7d"],
       persistResult ⟨[], [], []⟩
         (processKeyword cFailOracle "kw" ["a1"] cRunArgs.toProcArgs [cMediaEp]
           ["\x7bkeyword\x7d"]) 1) :=
  ⟨⟨rfl, rfl, by rfl⟩,
    retry_after_verify_replaces cRunArgs cFailOracle cFailOracle "kw" ["a1"]
      [cMediaEp] ["\x7bkeyword\x7d"] ⟨[], [], []⟩ 1 rfl rfl (by rfl)⟩

/-! ## EndpointFetcher lemmas and claims C1, C8 -/

/-- Dedup invariant of the `fetch_endpoint_items` loop state: collected
items have pairwise distinct identity keys, all of which are recorded in
`seen_uids`. -/
def DedupInv (items : List JVal) (seen : List String) : Prop :=
  (items.map uidOf).Nodup ∧ ∀ it ∈ items, uidOf it ∈ seen

lemma uidOf_mapUserBasic (u : PUser) (r : Nat) : uidOf (mapUserBasic u r) = u.uid := by
  simp [uidOf, mapUserBasic, pyLookup]

lemma uidOf_mapUserContributor (u : PUser) (r : Nat) :
    uidOf (mapUserContributor u r) = u.uid := by
  simp [uidOf, mapUserContributor, pyLookup]

lemma addUsers_inv (mk : PUser → Nat → JVal) (hmk : ∀ u r, uidOf (mk u r) = u.uid) :
    ∀ (users : List PUser) (items : List JVal) (seen : List String) (got : Nat),
      DedupInv items seen →
      DedupInv (addUsers mk users items seen got).1 (addUsers mk users items seen got).2.1 := by
  intro users
  induction users with
  | nil => intro items seen got h; simpa [addUsers] using h
  | cons u rest ih =>
    intro items seen got h
    by_cases hc : u.uid = "" ∨ u.uid ∈ seen
    · simpa [addUsers, hc] using ih items seen got h
    · push_neg at hc
      have hstep : addUsers mk (u :: rest) items seen got =
          addUsers mk rest (items ++ [mk u (items.length + 1)]) (u.uid :: seen) (got + 1) := by
        simp [addUsers, hc.1, hc.2]
      rw [hstep]
      apply ih
      constructor
      · rw [List.map_append]
        rw [List.nodup_append]
        refine ⟨h.1, by simp, ?_⟩
        intro a ha hb
        simp only [List.map_cons, List.map_nil, List.mem_cons, List.not_mem_nil,
          or_false, hmk] at hb
        subst hb
        obtain ⟨it, hit, hima⟩ := List.mem_map.1 ha
        exact hc.2 (hima ▸ h.2 it hit)
      · intro it hit
        rcases List.mem_append.1 hit with hin | hnew
        · exact List.mem_cons_of_mem _ (h.2 it hin)
        · simp only [List.mem_singleton] at hnew
          subst hnew
          rw [hmk]
          exact List.mem_cons_self _ _

lemma addCards_inv (parser : ParserKind) (hp : parser ≠ ParserKind.rawCards)
    (cards : List JVal) (items : List JVal) (seen : List String)
    (h : DedupInv items seen) :
    DedupInv (addCards parser cards items seen).1 (addCards parser cards items seen).2.1 := by
  cases parser with
  | rawCards => exact absurd rfl hp
  | usersBasic =>
    exact addUsers_inv _ uidOf_mapUserBasic (parseCardGroupUsers cards) items seen 0 h
  | contributors =>
    exact addUsers_inv _ uidOf_mapUserContributor (parseCardGroupUsers cards) items seen 0 h

lemma pageStep_pagesFetched (parser : ParserKind) (payload : JVal) (st : FetchSt) :
    (pageStep parser payload st).1.pagesFetched = st.pagesFetched + 1 := by
  unfold pageStep
  cases hd : dataOf payload with
  | none => rfl
  | some dm =>
    rcases h : addCards parser (cardsOf dm) st.items st.seen with ⟨items2, seen2, got⟩
    simp [h]

lemma pageStep_total (parser : ParserKind) (payload : JVal) (st : FetchSt) :
    (pageStep parser payload st).1.total = totalStepFn st.total (pageTotal payload) := by
  unfold pageStep pageTotal
  cases hd : dataOf payload with
  | none => simp [totalStepFn]
  | some dm =>
    rcases h : addCards parser (cardsOf dm) st.items st.seen with ⟨items2, seen2, got⟩
    simp [h]

lemma pageStep_inv (parser : ParserKind) (hp : parser ≠ ParserKind.rawCards)
    (payload : JVal) (st : FetchSt) (h : DedupInv st.items st.seen) :
    DedupInv (pageStep parser payload st).1.items (pageStep parser payload st).1.seen := by
  unfold pageStep
  cases hd : dataOf payload with
  | none => simpa using h
  | some dm =>
    rcases haddc : addCards parser (cardsOf dm) st.items st.seen with ⟨items2, seen2, got⟩
    have := addCards_inv parser hp (cardsOf dm) st.items st.seen h
    rw [haddc] at this
    simpa [haddc] using this

lemma fetchLoop_pf_ge (pages : Nat → JVal) (parser : ParserKind) :
    ∀ (fuel p : Nat) (st : FetchSt),
      st.pagesFetched ≤ (fetchLoop pages parser p fuel st).pagesFetched := by
  intro fuel
  induction fuel with
  | zero => intro p st; simp [fetchLoop]
  | succ n ih =>
    intro p st
    simp only [fetchLoop]
    cases hr : (pageStep parser (pages p) st).2 with
    | false =>
      simp only [hr, if_false, Bool.false_eq_true]
      rw [pageStep_pagesFetched]
      omega
    | true =>
      simp only [hr, if_true]
      have h1 := ih (p + 1) (pageStep parser (pages p) st).1
      rw [pageStep_pagesFetched] at h1
      omega

lemma fetchLoop_pf_le (pages : Nat → JVal) (parser : ParserKind) :
    ∀ (fuel p : Nat) (st : FetchSt),
      (fetchLoop pages parser p fuel st).pagesFetched ≤ st.pagesFetched + fuel := by
  intro fuel
  induction fuel with
  | zero => intro p st; simp [fetchLoop]
  | succ n ih =>
    intro p st
    simp only [fetchLoop]
    cases hr : (pageStep parser (pages p) st).2 with
    | false =>
      simp only [hr, if_false, Bool.false_eq_true]
      rw [pageStep_pagesFetched]
      omega
    | true =>
      simp only [hr, if_true]
      have h1 := ih (p + 1) (pageStep parser (pages p) st).1
      rw [pageStep_pagesFetched] at h1
      omega

lemma fetchLoop_stable (pages : Nat → JVal) (parser : ParserKind) :
    ∀ (fuel fuel' p : Nat) (st : FetchSt), fuel ≤ fuel' →
      (fetchLoop pages parser p fuel st).pagesFetched < st.pagesFetched + fuel →
      fetchLoop pages parser p fuel' st = fetchLoop pages parser p fuel st := by
  intro fuel
  induction fuel with
  | zero =>
    intro fuel' p st _ hlt
    simp [fetchLoop] at hlt
  | succ n ih =>
    intro fuel' p st hle hlt
    cases fuel' with
    | zero => omega
    | succ m =>
      simp only [fetchLoop] at hlt ⊢
      cases hr : (pageStep parser (pages p) st).2 with
      | false => simp [hr]
      | true =>
        simp only [hr, if_true] at hlt ⊢
        have hpf := pageStep_pagesFetched parser (pages p) st
        apply ih m (p + 1) (pageStep parser (pages p) st).1 (by omega)
        omega

lemma fetchLoop_inv (pages : Nat → JVal) (parser : ParserKind)
    (hp : parser ≠ ParserKind.rawCards) :
    ∀ (fuel p : Nat) (st : FetchSt), DedupInv st.items st.seen →
      DedupInv (fetchLoop pages parser p fuel st).items
        (fetchLoop pages parser p fuel st).seen := by
  intro fuel
  induction fuel with
  | zero => intro p st h; simpa [fetchLoop] using h
  | succ n ih =>
    intro p st h
    simp only [fetchLoop]
    cases hr : (pageStep parser (pages p) st).2 with
    | false =>
      simp only [hr, if_false, Bool.false_eq_true]
      exact pageStep_inv parser hp (pages p) st h
    | true =>
      simp only [hr, if_true]
      exact ih (p + 1) _ (pageStep_inv parser hp (pages p) st h)

/-- Spec-level characterization of the returned total: the override fold
over the totals reported by the processed pages, i.e. the total of the
*last* processed page that reports one. -/
def lastReportedTotal (pages : Nat → JVal) : Nat → Nat → Option Int → Option Int
  | _, 0, t0 => t0
  | p, k + 1, t0 =>
    lastReportedTotal pages (p + 1) k (totalStepFn t0 (pageTotal (pages p)))

lemma fetchLoop_total_char (pages : Nat → JVal) (parser : ParserKind) :
    ∀ (fuel p : Nat) (st : FetchSt),
      (fetchLoop pages parser p fuel st).total =
        lastReportedTotal pages p
          ((fetchLoop pages parser p fuel st).pagesFetched - st.pagesFetched) st.total := by
  intro fuel
  induction fuel with
  | zero => intro p st; simp [fetchLoop, lastReportedTotal]
  | succ n ih =>
    intro p st
    simp only [fetchLoop]
    cases hr : (pageStep parser (pages p) st).2 with
    | false =>
      simp only [hr, if_false, Bool.false_eq_true]
      have hpf := pageStep_pagesFetched parser (pages p) st
      have htot := pageStep_total parser (pages p) st
      have hdiff : (pageStep parser (pages p) st).1.pagesFetched - st.pagesFetched = 1 := by
        omega
      rw [hdiff, lastReportedTotal, lastReportedTotal, htot]
    | true =>
      simp only [hr, if_true]
      have hpf := pageStep_pagesFetched parser (pages p) st
      have htot := pageStep_total parser (pages p) st
      have hge := fetchLoop_pf_ge pages parser n (p + 1) (pageStep parser (pages p) st).1
      have hih := ih (p + 1) (pageStep parser (pages p) st).1
      have hdiff :
          (fetchLoop pages parser (p + 1) n (pageStep parser (pages p) st).1).pagesFetched
              - st.pagesFetched =
            ((fetchLoop pages parser (p + 1) n (pageStep parser (pages p) st).1).pagesFetched
              - (pageStep parser (pages p) st).1.pagesFetched) + 1 := by
        omega
      rw [hih, htot, hdiff, lastReportedTotal]

/-- A dict card with no usable identity (used by the raw_cards
counterexample). -/
def c1card : JVal := jobj [("k", jint 1)]

/-- Every page carries the same single dict card. -/
def c1pages : Nat → JVal :=
  fun _ => jobj [("data", jobj [("cards", jarr [c1card])])]

/-- Claim C1, counterexample: with the `raw_cards` parser, pages that
repeat the very same card yield a returned list containing that item
twice — no dedup-by-identity is applied on this parser (and the repeat
page counts as `got = 2 ≠ 0` new items, so pagination does not stop
either). -/
theorem fetch_dedup_claim_counterexample :
    (fetchEndpointItems c1pages ParserKind.rawCards 2).items = [c1card, c1card] ∧
    ¬ (fetchEndpointItems c1pages ParserKind.rawCards 2).items.Nodup := by
  constructor
  · rfl
  · intro h
    rw [(by rfl : (fetchEndpointItems c1pages ParserKind.rawCards 2).items
        = [c1card, c1card])] at h
    simp at h

/-- Claim C1 (amended): for the mapper parsers (`users_basic`,
`contributors`) the returned list never contains two items with the same
identity key (the `uid`); pagination visits at most `max_pages` pages,
and once a run stops before its page budget (a page contributed zero new
items or was malformed) giving it any larger budget returns the
identical result — no further page is consulted.  The `raw_cards` parser
appends every dict card with no dedup. -/
theorem fetch_dedup_and_stop (pages : Nat → JVal) (parser : ParserKind) (maxPages : Nat) :
    (parser ≠ ParserKind.rawCards →
      ((fetchEndpointItems pages parser maxPages).items.map uidOf).Nodup) ∧
    (fetchEndpointItems pages parser maxPages).pagesFetched ≤ maxPages ∧
    (∀ m, maxPages ≤ m →
      (fetchEndpointItems pages parser maxPages).pagesFetched < maxPages →
      fetchEndpointItems pages parser m = fetchEndpointItems pages parser maxPages) := by
  refine ⟨fun hp => ?_, ?_, fun m hm hlt => ?_⟩
  · exact (fetchLoop_inv pages parser hp maxPages 1 ⟨[], [], none, 0⟩
      ⟨List.nodup_nil, by simp⟩).1
  · simpa using fetchLoop_pf_le pages parser maxPages 1 ⟨[], [], none, 0⟩
  · exact fetchLoop_stable pages parser maxPages m 1 ⟨[], [], none, 0⟩ hm (by simpa using hlt)

/-- A page whose single card carries the given user id. -/
def cW1card (uid : String) : JVal :=
  jobj [("card_group", jarr [jobj [("card_type", jint 10),
    ("user", jobj [("id", jstr uid)])]])]

/-- Every page repeats the same user, so page 2 contributes zero new
items and the fetch stops after two of five pages. -/
def cW1pages : Nat → JVal :=
  fun _ => jobj [("data", jobj [("cards", jarr [cW1card "7"])])]

/-- Witness for C1 (amended) on a concrete early-stopping run. -/
theorem fetch_dedup_and_stop_witness :
    (ParserKind.usersBasic ≠ ParserKind.rawCards ∧ 5 ≤ 7 ∧
      (fetchEndpointItems cW1pages ParserKind.usersBasic 5).pagesFetched < 5) ∧
    ((fetchEndpointItems cW1pages ParserKind.usersBasic 5).items.map uidOf).Nodup ∧
    fetchEndpointItems cW1pages ParserKind.usersBasic 7 =
      fetchEndpointItems cW1pages ParserKind.usersBasic 5 :=
  ⟨⟨by decide, by decide, by decide⟩,
    (fetch_dedup_and_stop cW1pages ParserKind.usersBasic 5).1 (by decide),
    (fetch_dedup_and_stop cW1pages ParserKind.usersBasic 5).2.2 7 (by decide) (by decide)⟩

/-- A full page reporting the given total and carrying one new user. -/
def c8page (t : Int) (uid : String) : JVal :=
  jobj [("data", jobj [("cardlistInfo", jobj [("total", jint t)]),
    ("cards", jarr [cW1card uid])])]

/-- Page 1 reports total 5, every later page total 7 with a fresh uid. -/
def c8pages : Nat → JVal :=
  fun p => if p = 1 then c8page 5 "1" else c8page 7 "2"

/-- Claim C8, counterexample: the first page reports total 5 but the
returned total is 7 — the code overrides `total` on every page that
reports one, so the value comes from the last reporting page, not the
first. -/
theorem fetch_total_claim_counterexample :
    (fetchEndpointItems c8pages ParserKind.usersBasic 2).total = some 7 ∧
    pageTotal (c8pages 1) = some 5 ∧ (7 : Int) ≠ 5 :=
  ⟨rfl, rfl, by decide⟩

/-- Claim C8 (amended): the returned `total` is the override fold of the
totals reported by the processed pages — i.e. the total of the *last*
processed page that reports one, and `null` when no processed page ever
reports one. -/
theorem fetch_total_last_reported (pages : Nat → JVal) (parser : ParserKind)
    (maxPages : Nat) :
    (fetchEndpointItems pages parser maxPages).total =
      lastReportedTotal pages 1
        (fetchEndpointItems pages parser maxPages).pagesFetched none := by
  simpa using fetchLoop_total_char pages parser maxPages 1 ⟨[], [], none, 0⟩

/-! ## Python-dict lemmas -/

/-- The keys of a dict, in insertion order. -/
def pyKeys (d : PyDict) : List String := d.map Prod.fst

lemma pyLookup_pyDictSet (d : PyDict) (k : String) (v : JVal) (k2 : String) :
    pyLookup (pyDictSet d k v) k2 = if k = k2 then v else pyLookup d k2 := by
  induction d with
  | nil =>
    by_cases h : k = k2 <;> simp [pyDictSet, pyLookup, h]
  | cons kv rest ih =>
    obtain ⟨k0, v0⟩ := kv
    by_cases h0 : k0 = k
    · subst h0
      by_cases h2 : k0 = k2 <;> simp [pyDictSet, pyLookup, h2]
    · by_cases h2 : k0 = k2
      · subst h2
        have : k ≠ k0 := fun h => h0 h.symm
        simp [pyDictSet, h0, pyLookup, this]
      · simp [pyDictSet, h0, pyLookup, h2, ih]

@[simp] lemma pyKeys_nil : pyKeys [] = [] := rfl

@[simp] lemma pyKeys_cons (k : String) (v : JVal) (d : PyDict) :
    pyKeys ((k, v) :: d) = k :: pyKeys d := rfl
lemma mem_pyKeys_pyDictSet (d : PyDict) (k : String) (v : JVal) (k2 : String) :
    k2 ∈ pyKeys (pyDictSet d k v) ↔ k2 = k ∨ k2 ∈ pyKeys d := by
  induction d with
  | nil => simp [pyDictSet]
  | cons kv rest ih =>
    obtain ⟨k0, v0⟩ := kv
    by_cases h0 : k0 = k
    · subst h0
      rw [show pyDictSet ((k0, v0) :: rest) k0 v = (k0, v) :: rest from by
        simp [pyDictSet]]
      simp
    · rw [show pyDictSet ((k0, v0) :: rest) k v = (k0, v0) :: pyDictSet rest k v from by
        simp [pyDictSet, h0]]
      simp [ih]
      tauto

lemma pyKeys_nodup_pyDictSet (d : PyDict) (k : String) (v : JVal)
    (h : (pyKeys d).Nodup) : (pyKeys (pyDictSet d k v)).Nodup := by
  induction d with
  | nil => simp [pyDictSet]
  | cons kv rest ih =>
    obtain ⟨k0, v0⟩ := kv
    simp only [pyKeys_cons, List.nodup_cons] at h
    by_cases h0 : k0 = k
    · subst h0
      rw [show pyDictSet ((k0, v0) :: rest) k0 v = (k0, v) :: rest from by
        simp [pyDictSet]]
      simp only [pyKeys_cons, List.nodup_cons]
      exact h
    · rw [show pyDictSet ((k0, v0) :: rest) k v = (k0, v0) :: pyDictSet rest k v from by
        simp [pyDictSet, h0]]
      simp only [pyKeys_cons, List.nodup_cons]
      refine ⟨fun hmem => ?_, ih h.2⟩
      rcases (mem_pyKeys_pyDictSet rest k v k0).1 hmem with rfl | hmem2
      · exact h0 rfl
      · exact h.1 hmem2

lemma mem_pyKeys_of_lookup_ne_null (d : PyDict) (k : String)
    (h : pyLookup d k ≠ jnull) : k ∈ pyKeys d := by
  induction d with
  | nil => simp [pyLookup] at h
  | cons kv rest ih =>
    obtain ⟨k0, v0⟩ := kv
    by_cases h0 : k0 = k
    · subst h0; simp
    · simp only [pyLookup, if_neg h0] at h
      simp only [pyKeys_cons, List.mem_cons]
      exact Or.inr (ih h)

lemma pyLookup_pyDictUpdate (e : PyDict) :
    ∀ (d : PyDict) (k : String), (pyKeys e).Nodup →
      pyLookup (pyDictUpdate d e) k =
        if k ∈ pyKeys e then pyLookup e k else pyLookup d k := by
  induction e with
  | nil =>
    intro d k _
    simp [pyDictUpdate, pyLookup]
  | cons kv rest ih =>
    obtain ⟨k0, v0⟩ := kv
    intro d k hnd
    simp only [pyKeys_cons, List.nodup_cons] at hnd
    simp only [pyDictUpdate]
    rw [ih (pyDictSet d k0 v0) k hnd.2]
    by_cases hmem : k ∈ pyKeys rest
    · have hk0 : k0 ≠ k := fun hh => hnd.1 (by rw [hh]; exact hmem)
      rw [if_pos hmem, if_pos (by simp [hmem])]
      simp [pyLookup, hk0]
    · rw [if_neg hmem, pyLookup_pyDictSet]
      by_cases hk0 : k0 = k
      · subst hk0
        rw [if_pos rfl, if_pos (by simp)]
        simp [pyLookup]
      · have hcond : ¬(k = k0 ∨ k ∈ pyKeys rest) := by
          rintro (rfl | h2)
          · exact hk0 rfl
          · exact hmem h2
        rw [if_neg hk0, if_neg (by simpa using hcond)]

/-! ## `process_keyword` lemmas -/

/-- Sanity of the endpoint configuration: distinct output fields (the
loader validates this), no total field shadowing an output field, and no
output field colliding with the post-acceptance `host` rewrite.  The
builtin `media` + `contributors` configuration satisfies all three. -/
def ConfigOK (endpoints : List ApiEndpoint) : Prop :=
  (endpoints.map ApiEndpoint.outputField).Nodup ∧
  (∀ e1 ∈ endpoints, ∀ e2 ∈ endpoints, e1.totalField ≠ e2.outputField) ∧
  (∀ ep ∈ endpoints, ep.outputField ≠ "host")

/-- Unfolding equation: a raising endpoint fetch aborts the loop. -/
lemma fetchEndpointsAcc_cons_err (oracle : FetchOracle) (acc q : String)
    (ep : ApiEndpoint) (rest : List ApiEndpoint) (epay0 : PyDict) (e : String)
    (h : oracle acc q ep = .error e) :
    fetchEndpointsAcc oracle acc q (ep :: rest) epay0 = .error e := by
  simp [fetchEndpointsAcc, h]

/-- Unfolding equation: a successful endpoint fetch records its items
and (when configured) its total, then continues. -/
lemma fetchEndpointsAcc_cons_ok (oracle : FetchOracle) (acc q : String)
    (ep : ApiEndpoint) (rest : List ApiEndpoint) (epay0 : PyDict)
    (items : List JVal) (total : Option Int)
    (h : oracle acc q ep = .ok (items, total)) :
    fetchEndpointsAcc oracle acc q (ep :: rest) epay0 =
      fetchEndpointsAcc oracle acc q rest
        (if ep.totalField = "" then pyDictSet epay0 ep.outputField (jarr items)
         else pyDictSet (pyDictSet epay0 ep.outputField (jarr items)) ep.totalField
           (match total with | some n => jint n | none => jnull)) := by
  cases total <;> simp [fetchEndpointsAcc, h]

lemma fetchEndpointsAcc_preserves (oracle : FetchOracle) (acc q : String) :
    ∀ (eps : List ApiEndpoint) (epay0 epay : PyDict) (k : String),
      fetchEndpointsAcc oracle acc q eps epay0 = .ok epay →
      (∀ ep ∈ eps, ep.outputField ≠ k ∧ ep.totalField ≠ k) →
      pyLookup epay k = pyLookup epay0 k := by
  intro eps
  induction eps with
  | nil =>
    intro epay0 epay k h _
    simp only [fetchEndpointsAcc, Except.ok.injEq] at h
    rw [h]
  | cons ep rest ih =>
    intro epay0 epay k h hk
    cases ho : oracle acc q ep with
    | error e =>
      rw [fetchEndpointsAcc_cons_err oracle acc q ep rest epay0 e ho] at h
      cases h
    | ok r =>
      obtain ⟨items, total⟩ := r
      rw [fetchEndpointsAcc_cons_ok oracle acc q ep rest epay0 items total ho] at h
      have hrest := ih _ epay k h (fun e he => hk e (List.mem_cons_of_mem ep he))
      rw [hrest]
      have hof := hk ep (List.mem_cons_self ep rest)
      by_cases htf : ep.totalField = ""
      · rw [if_pos htf, pyLookup_pyDictSet, if_neg hof.1]
      · rw [if_neg htf, pyLookup_pyDictSet, if_neg hof.2, pyLookup_pyDictSet,
          if_neg hof.1]

lemma fetchEndpointsAcc_keys_nodup (oracle : FetchOracle) (acc q : String) :
    ∀ (eps : List ApiEndpoint) (epay0 epay : PyDict),
      (pyKeys epay0).Nodup →
      fetchEndpointsAcc oracle acc q eps epay0 = .ok epay →
      (pyKeys epay).Nodup := by
  intro eps
  induction eps with
  | nil =>
    intro epay0 epay h0 h
    simp only [fetchEndpointsAcc, Except.ok.injEq] at h
    rw [← h]; exact h0
  | cons ep rest ih =>
    intro epay0 epay h0 h
    cases ho : oracle acc q ep with
    | error e =>
      rw [fetchEndpointsAcc_cons_err oracle acc q ep rest epay0 e ho] at h
      cases h
    | ok r =>
      obtain ⟨items, total⟩ := r
      rw [fetchEndpointsAcc_cons_ok oracle acc q ep rest epay0 items total ho] at h
      apply ih _ epay _ h
      by_cases htf : ep.totalField = ""
      · rw [if_pos htf]
        exact pyKeys_nodup_pyDictSet _ _ _ h0
      · rw [if_neg htf]
        exact pyKeys_nodup_pyDictSet _ _ _ (pyKeys_nodup_pyDictSet _ _ _ h0)

lemma fetchEndpointsAcc_lookup (oracle : FetchOracle) (acc q : String) :
    ∀ (eps : List ApiEndpoint) (epay0 epay : PyDict),
      (eps.map ApiEndpoint.outputField).Nodup →
      (∀ e1 ∈ eps, ∀ e2 ∈ eps, e1.totalField ≠ e2.outputField) →
      fetchEndpointsAcc oracle acc q eps epay0 = .ok epay →
      ∀ ep ∈ eps, ∃ items total, oracle acc q ep = .ok (items, total) ∧
        pyLookup epay ep.outputField = jarr items := by
  intro eps
  induction eps with
  | nil =>
    intro _ _ _ _ _ ep hep
    cases hep
  | cons e0 rest ih =>
    intro epay0 epay hnd htf h ep hep
    simp only [List.map_cons, List.nodup_cons] at hnd
    cases ho : oracle acc q e0 with
    | error e =>
      rw [fetchEndpointsAcc_cons_err oracle acc q e0 rest epay0 e ho] at h
      cases h
    | ok r =>
      obtain ⟨items, total⟩ := r
      rw [fetchEndpointsAcc_cons_ok oracle acc q e0 rest epay0 items total ho] at h
      rcases List.mem_cons.1 hep with rfl | hmem
      · refine ⟨items, total, ho, ?_⟩
        have hpres := fetchEndpointsAcc_preserves oracle acc q rest _ epay
          ep.outputField h
          (fun e2 he2 =>
            ⟨fun hc => hnd.1 (hc ▸ List.mem_map_of_mem ApiEndpoint.outputField he2),
             htf e2 (List.mem_cons_of_mem _ he2) ep (List.mem_cons_self _ _)⟩)
        rw [hpres]
        by_cases htf0 : ep.totalField = ""
        · rw [if_pos htf0, pyLookup_pyDictSet, if_pos rfl]
        · have hne : ep.totalField ≠ ep.outputField :=
            htf ep (List.mem_cons_self _ _) ep (List.mem_cons_self _ _)
          rw [if_neg htf0, pyLookup_pyDictSet, if_neg hne, pyLookup_pyDictSet,
            if_pos rfl]
      · exact ih _ epay hnd.2
          (fun e1 he1 e2 he2 =>
            htf e1 (List.mem_cons_of_mem _ he1) e2 (List.mem_cons_of_mem _ he2))
          h ep hmem

lemma fetchEndpointsAcc_all_ok (oracle : FetchOracle) (acc q : String) :
    ∀ (eps : List ApiEndpoint) (epay0 : PyDict),
      (∀ ep ∈ eps, ∃ r, oracle acc q ep = .ok r) →
      ∃ epay, fetchEndpointsAcc oracle acc q eps epay0 = .ok epay := by
  intro eps
  induction eps with
  | nil => intro epay0 _; exact ⟨epay0, rfl⟩
  | cons e0 rest ih =>
    intro epay0 hok
    obtain ⟨⟨items, total⟩, hr⟩ := hok e0 (List.mem_cons_self _ _)
    obtain ⟨epay, hrec⟩ := ih
      (if e0.totalField = "" then pyDictSet epay0 e0.outputField (jarr items)
       else pyDictSet (pyDictSet epay0 e0.outputField (jarr items)) e0.totalField
         (match total with | some n => jint n | none => jnull))
      (fun ep hep => hok ep (List.mem_cons_of_mem _ hep))
    exact ⟨epay, by rw [fetchEndpointsAcc_cons_ok oracle acc q e0 rest epay0
      items total hr]; exact hrec⟩

/-- The payload and guard facts of any accepted variant: an accepted
Outcome is the admission literal built from some variant's endpoint
payload, and the contributors guard evaluated to false on it. -/
lemma tryVariants_ok_some (oracle : FetchOracle) (acc : String)
    (endpoints : List ApiEndpoint) (allowE : Bool) (kw : String) :
    ∀ (variants : List String) (o : Outcome),
      tryVariants oracle acc endpoints allowE kw variants = .ok (some o) →
      ∃ q epay, fetchEndpointsAcc oracle acc q endpoints [] = .ok epay ∧
        (endpoints.any (fun ep => ep.outputField == "top_contributors") &&
          !pyTruthy (pyLookup (pyDictUpdate defaultPayload epay) "top_contributors") &&
          !allowE) = false ∧
        o = ⟨kw,
          endpoints.any
            (fun ep => pyTruthy (pyLookup (pyDictUpdate defaultPayload epay) ep.outputField)),
          pyDictSet (pyDictUpdate defaultPayload epay) "host"
            (jstr (extractHost (pyDictUpdate defaultPayload epay))),
          acc, true, ""⟩ := by
  intro variants
  induction variants with
  | nil =>
    intro o h
    simp [tryVariants] at h
  | cons q rest ih =>
    intro o h
    simp only [tryVariants] at h
    split at h
    next e heq =>
      split at h
      · cases h
      · exact ih o h
    next epay heq =>
      split at h
      · split at h
        · cases h
        · exact ih o h
      next hguard =>
        simp only [Except.ok.injEq, Option.some.injEq] at h
        refine ⟨q, epay, heq, ?_, h.symm⟩
        simpa using hguard

lemma tryAccounts_some (oracle : FetchOracle) (endpoints : List ApiEndpoint)
    (allowE : Bool) (kw : String) (variants : List String) :
    ∀ (accs : List String) (le la : String) (o : Outcome) (le2 la2 : String),
      tryAccounts oracle endpoints allowE kw variants accs le la = (some o, le2, la2) →
      ∃ acc ∈ accs,
        tryVariants oracle acc endpoints allowE kw variants = .ok (some o) := by
  intro accs
  induction accs with
  | nil => intro le la o le2 la2 h; simp [tryAccounts] at h
  | cons acc rest ih =>
    intro le la o le2 la2 h
    simp only [tryAccounts] at h
    split at h
    next o2 heq =>
      simp only [Prod.mk.injEq, Option.some.injEq] at h
      exact ⟨acc, List.mem_cons_self _ _, by rw [heq, h.1]⟩
    next heq =>
      obtain ⟨a2, ha2, hv2⟩ := ih _ _ _ _ _ h
      exact ⟨a2, List.mem_cons_of_mem _ ha2, hv2⟩
    next e heq =>
      obtain ⟨a2, ha2, hv2⟩ := ih _ _ _ _ _ h
      exact ⟨a2, List.mem_cons_of_mem _ ha2, hv2⟩

lemma tryAttempts_some (oracle : FetchOracle) (endpoints : List ApiEndpoint)
    (allowE : Bool) (kw : String) (variants : List String) (activeOrd : List String) :
    ∀ (n : Nat) (le la : String) (o : Outcome) (le2 la2 : String),
      tryAttempts oracle endpoints allowE kw variants activeOrd n le la = (some o, le2, la2) →
      ∃ acc ∈ activeOrd,
        tryVariants oracle acc endpoints allowE kw variants = .ok (some o) := by
  intro n
  induction n with
  | zero => intro le la o le2 la2 h; simp [tryAttempts] at h
  | succ n ih =>
    intro le la o le2 la2 h
    simp only [tryAttempts] at h
    split at h
    next o2 le3 la3 heq =>
      simp only [Prod.mk.injEq, Option.some.injEq] at h
      obtain ⟨acc, hacc, hv⟩ := tryAccounts_some oracle endpoints allowE kw variants
        activeOrd le la o2 le3 la3 heq
      exact ⟨acc, hacc, by rw [hv, h.1]⟩
    next le3 la3 heq =>
      exact ih _ _ _ _ _ h

/-- Every accepted `process_keyword` run returns the admission literal of
one of its variants on one of its active accounts. -/
lemma processKeyword_accepted (oracle : FetchOracle) (kw : String)
    (clients : List String) (args : ProcArgs) (endpoints : List ApiEndpoint)
    (templates : List String)
    (hok : (processKeyword oracle kw clients args endpoints templates).ok = true) :
    ∃ acc ∈ activeOrder args kw clients,
      tryVariants oracle acc endpoints args.allowEmptyContrib kw
        (buildQueryVariants kw templates []) =
        .ok (some (processKeyword oracle kw clients args endpoints templates)) := by
  simp only [processKeyword] at hok ⊢
  cases ht : tryAttempts oracle endpoints args.allowEmptyContrib kw
      (buildQueryVariants kw templates []) (activeOrder args kw clients)
      args.maxRetries "" "" with
  | mk first rest2 =>
    cases first with
    | none =>
      rw [ht] at hok
      simp [failureOutcome] at hok
    | some o =>
      exact tryAttempts_some oracle endpoints args.allowEmptyContrib kw
        (buildQueryVariants kw templates []) (activeOrder args kw clients)
        args.maxRetries "" "" o rest2.1 rest2.2 (by rw [ht])
lemma pyTruthy_jarr (l : List JVal) : pyTruthy (jarr l) = true ↔ l ≠ [] := by
  cases l <;> simp [pyTruthy]

/-- Every fact about an accepted run that the acceptance-policy claim
needs: the endpoint payload it was built from, the refuted contributors
guard, the `found` computation, and the per-endpoint item lists as
recorded in the returned payload. -/
lemma processKeyword_accepted_facts (oracle : FetchOracle) (kw : String)
    (clients : List String) (args : ProcArgs) (endpoints : List ApiEndpoint)
    (templates : List String) (hcfg : ConfigOK endpoints)
    (hok : (processKeyword oracle kw clients args endpoints templates).ok = true) :
    ∃ acc q epay,
      fetchEndpointsAcc oracle acc q endpoints [] = .ok epay ∧
      (endpoints.any (fun ep => ep.outputField == "top_contributors") &&
        !pyTruthy (pyLookup (pyDictUpdate defaultPayload epay) "top_contributors") &&
        !args.allowEmptyContrib) = false ∧
      (processKeyword oracle kw clients args endpoints templates).found =
        endpoints.any
          (fun ep => pyTruthy (pyLookup (pyDictUpdate defaultPayload epay) ep.outputField)) ∧
      (∀ ep ∈ endpoints, ∃ items total, oracle acc q ep = .ok (items, total) ∧
        pyLookup (pyDictUpdate defaultPayload epay) ep.outputField = jarr items ∧
        pyLookup (processKeyword oracle kw clients args endpoints templates).payload
          ep.outputField = jarr items) ∧
      pyLookup (processKeyword oracle kw clients args endpoints templates).payload
          "top_contributors" =
        pyLookup (pyDictUpdate defaultPayload epay) "top_contributors" := by
  obtain ⟨acc, hacc, hv⟩ :=
    processKeyword_accepted oracle kw clients args endpoints templates hok
  obtain ⟨q, epay, hfetch, hguard, hoeq⟩ := tryVariants_ok_some oracle acc endpoints
    args.allowEmptyContrib kw (buildQueryVariants kw templates []) _ hv
  have hknd := fetchEndpointsAcc_keys_nodup oracle acc q endpoints [] epay
    (by simp) hfetch
  have hlk := fetchEndpointsAcc_lookup oracle acc q endpoints [] epay
    hcfg.1 hcfg.2.1 hfetch
  have hdpAll : ∀ ep ∈ endpoints, ∃ items total,
      oracle acc q ep = .ok (items, total) ∧
      pyLookup (pyDictUpdate defaultPayload epay) ep.outputField = jarr items := by
    intro ep hep
    obtain ⟨items, total, ho, hl⟩ := hlk ep hep
    refine ⟨items, total, ho, ?_⟩
    rw [pyLookup_pyDictUpdate epay defaultPayload ep.outputField hknd,
      if_pos (mem_pyKeys_of_lookup_ne_null _ _
        (by rw [hl]; exact fun hh => JVal.noConfusion hh))]
    exact hl
  refine ⟨acc, q, epay, hfetch, hguard, ?_, ?_, ?_⟩
  · rw [hoeq]
  · intro ep hep
    obtain ⟨items, total, ho, hdp⟩ := hdpAll ep hep
    refine ⟨items, total, ho, hdp, ?_⟩
    simp only [hoeq]
    rw [pyLookup_pyDictSet, if_neg (fun hh => hcfg.2.2 ep hep hh.symm), hdp]
  · simp only [hoeq]
    rw [pyLookup_pyDictSet, if_neg (by decide)]

/-- Claim C2: on an accepted Outcome, `found` is true iff at least one
configured endpoint's item list is non-empty; an accepted Outcome with
the contributors-equivalent endpoint empty forces the allow-empty-contrib
override; and when every fetch of the contributors-equivalent endpoint
returns an empty list and the override is off, the whole run is surfaced
as a failure (`_ok = False`). -/
theorem process_acceptance_policy :
    (∀ (oracle : FetchOracle) (kw : String) (clients : List String) (args : ProcArgs)
        (endpoints : List ApiEndpoint) (templates : List String),
      ConfigOK endpoints →
      (processKeyword oracle kw clients args endpoints templates).ok = true →
      ((processKeyword oracle kw clients args endpoints templates).found = true ↔
        ∃ ep ∈ endpoints, ∃ items : List JVal,
          pyLookup (processKeyword oracle kw clients args endpoints templates).payload
            ep.outputField = jarr items ∧ items ≠ []) ∧
      ((∃ ep ∈ endpoints, ep.outputField = "top_contributors") →
        pyLookup (processKeyword oracle kw clients args endpoints templates).payload
          "top_contributors" = jarr [] →
        args.allowEmptyContrib = true)) ∧
    (∀ (oracle : FetchOracle) (kw : String) (clients : List String) (args : ProcArgs)
        (endpoints : List ApiEndpoint) (templates : List String)
        (contribEp : ApiEndpoint),
      ConfigOK endpoints → contribEp ∈ endpoints →
      contribEp.outputField = "top_contributors" →
      args.allowEmptyContrib = false →
      (∀ acc q (items : List JVal) total,
        oracle acc q contribEp = .ok (items, total) → items = []) →
      (processKeyword oracle kw clients args endpoints templates).ok = false) := by
  constructor
  · intro oracle kw clients args endpoints templates hcfg hok
    obtain ⟨acc, q, epay, hfetch, hguard, hfound, hpay, htc⟩ :=
      processKeyword_accepted_facts oracle kw clients args endpoints templates hcfg hok
    constructor
    · constructor
      · intro hf
        rw [hfound] at hf
        obtain ⟨ep, hep, htr⟩ := List.any_eq_true.1 hf
        obtain ⟨items, total, _, hdp, hpl⟩ := hpay ep hep
        rw [hdp] at htr
        exact ⟨ep, hep, items, hpl, (pyTruthy_jarr items).1 htr⟩
      · rintro ⟨ep, hep, items, hpl, hne⟩
        obtain ⟨items0, total, _, hdp, hpl0⟩ := hpay ep hep
        have : items0 = items := by
          rw [hpl] at hpl0
          injection hpl0 with h2
          exact h2.symm
        subst this
        rw [hfound]
        exact List.any_eq_true.2 ⟨ep, hep, by rw [hdp]; exact (pyTruthy_jarr items0).2 hne⟩
    · rintro ⟨cep, hcep, hcepof⟩ hempty
      have hhc : endpoints.any (fun ep => ep.outputField == "top_contributors") = true :=
        List.any_eq_true.2 ⟨cep, hcep, by simp [hcepof]⟩
      have hdpempty : pyLookup (pyDictUpdate defaultPayload epay) "top_contributors" =
          jarr [] := by
        rw [← htc]; exact hempty
      rw [hhc, hdpempty] at hguard
      simpa [pyTruthy] using hguard
  · intro oracle kw clients args endpoints templates contribEp hcfg hce hcf hae hempty
    cases hb : (processKeyword oracle kw clients args endpoints templates).ok with
    | false => rfl
    | true =>
      exfalso
      obtain ⟨acc, q, epay, hfetch, hguard, _, hpay, _⟩ :=
        processKeyword_accepted_facts oracle kw clients args endpoints templates hcfg hb
      obtain ⟨items, total, ho, hdp, _⟩ := hpay contribEp hce
      have hitems : items = [] := hempty acc q items total ho
      subst hitems
      have hhc : endpoints.any (fun ep => ep.outputField == "top_contributors") = true :=
        List.any_eq_true.2 ⟨contribEp, hce, by simp [hcf]⟩
      rw [hcf] at hdp
      rw [hhc, hdp, hae] at hguard
      simp [pyTruthy] at hguard

/-- An oracle that succeeds with one item on every endpoint. -/
def cOracle2 : FetchOracle := fun _ _ _ => .ok ([jobj [("uid", jstr "1")]], some 3)

/-- Witness for C2 on a concrete accepted run with the builtin endpoint
pair. -/
theorem process_acceptance_policy_witness :
    (ConfigOK [cMediaEp, cContribEp] ∧
      (processKeyword cOracle2 "kw" ["a1"] ⟨1, false, false, true⟩
        [cMediaEp, cContribEp] ["\x7bkeyword\x7d"]).ok = true) ∧
    ((processKeyword cOracle2 "kw" ["a1"] ⟨1, false, false, true⟩
        [cMediaEp, cContribEp] ["\x7bkeyword\x7d"]).found = true ↔
      ∃ ep ∈ [cMediaEp, cContribEp], ∃ items : List JVal,
        pyLookup (processKeyword cOracle2 "kw" ["a1"] ⟨1, false, false, true⟩
          [cMediaEp, cContribEp] ["\x7bkeyword\x7d"]).payload
          ep.outputField = jarr items ∧ items ≠ []) ∧
    ((∃ ep ∈ [cMediaEp, cContribEp], ep.outputField = "top_contributors") →
      pyLookup (processKeyword cOracle2 "kw" ["a1"] ⟨1, false, false, true⟩
        [cMediaEp, cContribEp] ["\x7bkeyword\x7d"]).payload
        "top_contributors" = jarr [] →
      (⟨1, false, false, true⟩ : ProcArgs).allowEmptyContrib = true) :=
  ⟨⟨by unfold ConfigOK; decide, by rfl⟩,
    process_acceptance_policy.1 cOracle2 "kw" ["a1"] ⟨1, false, false, true⟩
      [cMediaEp, cContribEp] ["\x7bkeyword\x7d"] (by unfold ConfigOK; decide) (by rfl)⟩

/-! ## Claim C3: deterministic primary account, rotation, fallback -/

lemma accountOrder_eq_rotate (kw : String) (clients : List String)
    (h : clients ≠ []) :
    accountOrder kw clients = clients.rotate (primaryIdx kw clients.length) := by
  have hn : 0 < clients.length := List.length_pos.2 h
  apply List.ext_getElem
  · simp [accountOrder, List.length_rotate]
  · intro i h1 h2
    simp only [accountOrder, List.getElem_map, List.getElem_range]
    rw [List.getElem_rotate]
    have hlt : (primaryIdx kw clients.length + i) % clients.length < clients.length :=
      Nat.mod_lt _ hn
    rw [List.getD_eq_getElem _ _ hlt]
    have hidx : (primaryIdx kw clients.length + i) % clients.length =
        (i + primaryIdx kw clients.length) % clients.length := by
      rw [Nat.add_comm]
    simp only [hidx]

lemma activeOrder_strict (args : ProcArgs) (kw : String) (clients : List String)
    (h : clients ≠ []) (hs : args.strictAccountIsolation = true) :
    activeOrder args kw clients = [clients.getD (primaryIdx kw clients.length) ""] := by
  have hn : 0 < clients.length := List.length_pos.2 h
  have hidxlt : primaryIdx kw clients.length < clients.length := Nat.mod_lt _ hn
  simp only [activeOrder, hs, if_true, Bool.false_eq_true, if_false]
  congr 1
  have hlen : 0 < (accountOrder kw clients).length := by
    simp [accountOrder, hn]
  rw [List.getD_eq_getElem _ _ hlen]
  simp only [accountOrder, List.getElem_map, List.getElem_range]
  have : (primaryIdx kw clients.length + 0) % clients.length =
      primaryIdx kw clients.length := by
    rw [Nat.add_zero, Nat.mod_eq_of_lt hidxlt]
  rw [this]

lemma tryVariants_all_error (oracle : FetchOracle) (acc : String)
    (endpoints : List ApiEndpoint) (allowE : Bool) (kw : String)
    (hfail : ∀ q, ∃ e, fetchEndpointsAcc oracle acc q endpoints [] = .error e) :
    ∀ variants, variants ≠ [] →
      ∃ e, tryVariants oracle acc endpoints allowE kw variants = .error e := by
  intro variants
  induction variants with
  | nil => intro hne; exact absurd rfl hne
  | cons q rest ih =>
    intro _
    obtain ⟨e, he⟩ := hfail q
    cases rest with
    | nil => exact ⟨e, by simp [tryVariants, he]⟩
    | cons q2 r2 =>
      obtain ⟨e2, he2⟩ := ih (by simp)
      have hstep : tryVariants oracle acc endpoints allowE kw (q :: q2 :: r2) =
          tryVariants oracle acc endpoints allowE kw (q2 :: r2) := by
        simp [tryVariants, he]
      exact ⟨e2, hstep.trans he2⟩

lemma tryVariants_accepts (oracle : FetchOracle) (acc : String)
    (endpoints : List ApiEndpoint) (allowE : Bool) (kw : String)
    (hcfg : ConfigOK endpoints)
    (hsub : ∀ q ep, ep ∈ endpoints →
      ∃ items total, oracle acc q ep = .ok (items, total) ∧ items ≠ []) :
    ∀ q rest, ∃ o, tryVariants oracle acc endpoints allowE kw (q :: rest) = .ok (some o) ∧
      o.account = acc ∧ o.ok = true := by
  intro q rest
  obtain ⟨epay, hfetch⟩ := fetchEndpointsAcc_all_ok oracle acc q endpoints []
    (fun ep hep => by
      obtain ⟨items, total, ho, _⟩ := hsub q ep hep
      exact ⟨(items, total), ho⟩)
  have hknd := fetchEndpointsAcc_keys_nodup oracle acc q endpoints [] epay
    (by simp) hfetch
  have hlk := fetchEndpointsAcc_lookup oracle acc q endpoints [] epay
    hcfg.1 hcfg.2.1 hfetch
  have hguard : (endpoints.any (fun ep => ep.outputField == "top_contributors") &&
      !pyTruthy (pyLookup (pyDictUpdate defaultPayload epay) "top_contributors") &&
      !allowE) = false := by
    cases hhc : endpoints.any (fun ep => ep.outputField == "top_contributors") with
    | false => simp
    | true =>
      obtain ⟨cep, hcepmem, hcepof⟩ := List.any_eq_true.1 hhc
      rw [beq_iff_eq] at hcepof
      obtain ⟨items, total, ho, hl⟩ := hlk cep hcepmem
      obtain ⟨items2, total2, ho2, hne2⟩ := hsub q cep hcepmem
      rw [ho] at ho2
      have hieq : items = items2 := by
        injection ho2 with hpair
        exact congrArg Prod.fst hpair
      have htr : pyTruthy (pyLookup (pyDictUpdate defaultPayload epay)
          "top_contributors") = true := by
        rw [pyLookup_pyDictUpdate epay defaultPayload _ hknd,
          if_pos (mem_pyKeys_of_lookup_ne_null _ _
            (by rw [← hcepof, hl]; exact fun hh => JVal.noConfusion hh)),
          ← hcepof, hl]
        exact (pyTruthy_jarr items).2 (hieq ▸ hne2)
      simp [htr]
  refine ⟨⟨kw,
      endpoints.any
        (fun ep => pyTruthy (pyLookup (pyDictUpdate defaultPayload epay) ep.outputField)),
      pyDictSet (pyDictUpdate defaultPayload epay) "host"
        (jstr (extractHost (pyDictUpdate defaultPayload epay))),
      acc, true, ""⟩, ?_, rfl, rfl⟩
  simp [tryVariants, hfetch, hguard]

/-- Fallback scenario: the first account of the rotation always fails,
the second always succeeds with non-empty payloads — the returned record
names the second account. -/
lemma processKeyword_fallback (oracle : FetchOracle) (kw : String)
    (clients : List String) (args : ProcArgs) (endpoints : List ApiEndpoint)
    (templates : List String) (c0 c1 : String) (rest : List String)
    (hcfg : ConfigOK endpoints)
    (hstrict : args.strictAccountIsolation = false)
    (hfb : args.fallbackToOtherAccounts = true)
    (hmr : 1 ≤ args.maxRetries) (hne : endpoints ≠ [])
    (hv : buildQueryVariants kw templates [] ≠ [])
    (horder : accountOrder kw clients = c0 :: c1 :: rest)
    (hfail : ∀ q ep, ep ∈ endpoints → ∃ e, oracle c0 q ep = .error e)
    (hsub : ∀ q ep, ep ∈ endpoints →
      ∃ items total, oracle c1 q ep = .ok (items, total) ∧ items ≠ []) :
    (processKeyword oracle kw clients args endpoints templates).account = c1 ∧
    (processKeyword oracle kw clients args endpoints templates).ok = true := by
  have hao : activeOrder args kw clients = c0 :: c1 :: rest := by
    simp [activeOrder, hstrict, hfb, horder]
  have hfail2 : ∀ q, ∃ e, fetchEndpointsAcc oracle c0 q endpoints [] = .error e := by
    intro q
    cases hE : endpoints with
    | nil => exact absurd hE hne
    | cons e0 r0 =>
      obtain ⟨e, he⟩ := hfail q e0 (by rw [hE]; exact List.mem_cons_self _ _)
      exact ⟨e, fetchEndpointsAcc_cons_err oracle c0 q e0 r0 [] e he⟩
  obtain ⟨err, herr⟩ := tryVariants_all_error oracle c0 endpoints
    args.allowEmptyContrib kw hfail2 (buildQueryVariants kw templates []) hv
  cases hvv : buildQueryVariants kw templates [] with
  | nil => exact absurd hvv hv
  | cons qv restv =>
    rw [hvv] at herr
    obtain ⟨o, haccv, hoa, hook⟩ := tryVariants_accepts oracle c1 endpoints
      args.allowEmptyContrib kw hcfg hsub qv restv
    obtain ⟨n, hn⟩ : ∃ n, args.maxRetries = n + 1 := ⟨args.maxRetries - 1, by omega⟩
    have h1 : tryAccounts oracle endpoints args.allowEmptyContrib kw (qv :: restv)
        (c0 :: c1 :: rest) "" "" = (some o, err, c0) := by
      simp only [tryAccounts, herr, haccv]
    have h2 : tryAttempts oracle endpoints args.allowEmptyContrib kw (qv :: restv)
        (c0 :: c1 :: rest) (n + 1) "" "" = (some o, err, c0) := by
      simp only [tryAttempts, h1]
    have hrun : processKeyword oracle kw clients args endpoints templates = o := by
      simp only [processKeyword]
      rw [hvv, hao, hn, h2]
    rw [hrun]
    exact ⟨hoa, hook⟩

/-- Claim C3: the primary account index is the MD5 hash of the keyword
modulo the account count and the fallback order is the account list
rotated to start there; strict isolation collapses the active order to
exactly the single primary account; and with strict isolation off,
fallback on, an always-failing primary and a succeeding next account,
the returned Outcome's account field names the secondary account of the
rotation. -/
theorem process_account_selection :
    (∀ (kw : String) (clients : List String), clients ≠ [] →
      accountOrder kw clients = clients.rotate (md5Int kw % clients.length)) ∧
    (∀ (args : ProcArgs) (kw : String) (clients : List String), clients ≠ [] →
      args.strictAccountIsolation = true →
      activeOrder args kw clients = [clients.getD (md5Int kw % clients.length) ""]) ∧
    (∀ (oracle : FetchOracle) (kw : String) (clients : List String) (args : ProcArgs)
        (endpoints : List ApiEndpoint) (templates : List String)
        (c0 c1 : String) (rest : List String),
      ConfigOK endpoints →
      args.strictAccountIsolation = false →
      args.fallbackToOtherAccounts = true →
      1 ≤ args.maxRetries → endpoints ≠ [] →
      buildQueryVariants kw templates [] ≠ [] →
      accountOrder kw clients = c0 :: c1 :: rest →
      (∀ q ep, ep ∈ endpoints → ∃ e, oracle c0 q ep = Except.error e) →
      (∀ q ep, ep ∈ endpoints →
        ∃ items total, oracle c1 q ep = Except.ok (items, total) ∧ items ≠ []) →
      (processKeyword oracle kw clients args endpoints templates).account = c1 ∧
      (processKeyword oracle kw clients args endpoints templates).ok = true) :=
  ⟨fun kw clients h => accountOrder_eq_rotate kw clients h,
   fun args kw clients h hs => activeOrder_strict args kw clients h hs,
   fun oracle kw clients args endpoints templates c0 c1 rest hcfg hstrict hfb hmr
       hne hv horder hfail hsub =>
     processKeyword_fallback oracle kw clients args endpoints templates c0 c1 rest
       hcfg hstrict hfb hmr hne hv horder hfail hsub⟩

/-- Fallback oracle: account `a1` always raises, every other account
succeeds with one item. -/
def cOracle3 : FetchOracle := fun acc _ _ =>
  if acc = "a1" then .error "RuntimeError: boom"
  else .ok ([jobj [("uid", jstr "9")]], none)

/-- Witness for C3: keyword `hello` hashes to primary index 0 of two
accounts; `a1` always fails, and the returned record names `a2`. -/
theorem process_account_selection_witness :
    (ConfigOK [cMediaEp, cContribEp] ∧
      accountOrder "hello" ["a1", "a2"] = ["a1", "a2"] ∧
      buildQueryVariants "hello" ["\x7bkeyword\x7d"] [] ≠ []) ∧
    ((processKeyword cOracle3 "hello" ["a1", "a2"] ⟨1, false, false, true⟩
        [cMediaEp, cContribEp] ["\x7bkeyword\x7d"]).account = "a2" ∧
      (processKeyword cOracle3 "hello" ["a1", "a2"] ⟨1, false, false, true⟩
        [cMediaEp, cContribEp] ["\x7bkeyword\x7d"]).ok = true) :=
  ⟨⟨by unfold ConfigOK; decide, by decide, by decide⟩,
    process_account_selection.2.2 cOracle3 "hello" ["a1", "a2"]
      ⟨1, false, false, true⟩ [cMediaEp, cContribEp] ["\x7bkeyword\x7d"]
      "a1" "a2" [] (by unfold ConfigOK; decide) rfl rfl (by decide) (by decide) (by decide)
      (by decide)
      (fun q ep _ => ⟨"RuntimeError: boom", rfl⟩)
      (fun q ep _ => ⟨[jobj [("uid", jstr "9")]], none, rfl, by simp⟩)⟩

/-- Sanity of the MD5 embedding against the RFC 1321 test vector for
`"abc"` (`hashlib.md5(b"abc").hexdigest() = 900150983cd24fb0d6963f7d28e17f72`). -/
example : md5Int "abc" = 191415658344158766168031473277922803570 := by decide

/-- Sanity of the MD5 embedding against the empty-string test vector
(`d41d8cd98f00b204e9800998ecf8427e`). -/
example : md5Int "" = 281949768489412648962353822266799178366 := by decide
